import Mathlib

/-!
Verification development for the Dashboard-Automation repository.

The repository contains two batch pipelines:
  * `kimai_payroll_engineering.py` — pulls timesheet data from a Kimai API,
    detects work breaks, resolves foreign-key ids, and writes customer report
    workbooks;
  * `project-dashboard-ytd.py` — pulls jobs/invoices/estimates from a Service
    Fusion API, matches invoices to jobs, and writes a Power BI summary
    workbook.

This file gives a shallow embedding of the data model and the operations of
both scripts, translated from the Python source, and proves or refutes the
frozen specification claims about them.

Modelling conventions:
  * Python strings are modelled as `String` / `List Char`; the character-level
    helpers below reimplement the Python primitives used by the scripts
    (`str.strip`, `str.split`, substring containment, lexicographic
    comparison by code point).
  * Python numbers (currency totals, durations) are modelled as exact
    rationals `ℚ`; `round(x, n)` is modelled by `pyRound` (round half to
    even, as Python does).
  * Timestamps that the Kimai script has already converted to the local
    timezone are modelled as seconds `ℕ`; the local hour of a timestamp `t`
    is `t / 3600 % 24` and its local calendar day is `t / 86400`.
  * Fallible parsing returns `Option`; a caught Python exception is `none`.
-/

/-- Characters treated as whitespace by Python's `str.strip()` (the subset
relevant to date strings). -/
def isSpc (c : Char) : Bool :=
  c = ' ' || c = '\t' || c = '\n' || c = '\r'

/-- Model of Python `str.strip()` on the character list of a string. -/
def trimChars (l : List Char) : List Char :=
  ((l.dropWhile isSpc).reverse.dropWhile isSpc).reverse

/-- Model of Python `str.split(sep)` for a one-character separator. -/
def splitOnC (sep : Char) : List Char → List (List Char)
  | [] => [[]]
  | c :: cs =>
    if c = sep then [] :: splitOnC sep cs
    else
      match splitOnC sep cs with
      | [] => [[c]]
      | t :: ts => (c :: t) :: ts

/-- Decimal digit test by code point (models the character class accepted by
`strptime` numeric directives). -/
def isDigitC (c : Char) : Bool :=
  decide (48 ≤ c.toNat ∧ c.toNat ≤ 57)

/-- Numeric value of a decimal digit character. -/
def digitVal (c : Char) : ℕ := c.toNat - 48

/-- Value of a digit string read left to right. -/
def digitsVal (l : List Char) : ℕ :=
  l.foldl (fun a c => 10 * a + digitVal c) 0

/-- Parse a nonempty all-digit character list as a natural number; `none`
otherwise (a `ValueError` in Python). -/
def parseNatC (l : List Char) : Option ℕ :=
  if l ≠ [] ∧ l.all isDigitC then some (digitsVal l) else none

/-- Decimal digit character for a value below ten. -/
def digitChar : ℕ → Char
  | 0 => '0' | 1 => '1' | 2 => '2' | 3 => '3' | 4 => '4'
  | 5 => '5' | 6 => '6' | 7 => '7' | 8 => '8' | _ => '9'

/-- Decimal digit characters of a natural number, most significant first. -/
def natDigits (n : ℕ) : List Char :=
  if h : n < 10 then [digitChar n]
  else natDigits (n / 10) ++ [digitChar (n % 10)]
  decreasing_by exact Nat.div_lt_self (by omega) (by omega)

/-- Zero-padded decimal rendering to width `w` (models `%04d`, `%02d`). -/
def padC (w : ℕ) (n : ℕ) : List Char :=
  List.replicate (w - (natDigits n).length) '0' ++ natDigits n

/-- Bool-valued strict lexicographic order on character lists by code point,
modelling Python string `<`. -/
def lexLtB : List Char → List Char → Bool
  | _, [] => false
  | [], _ :: _ => true
  | a :: as_, b :: bs =>
    if a.toNat < b.toNat then true
    else if b.toNat < a.toNat then false
    else lexLtB as_ bs

/-- Floor of a rational as an integer, computed from the reduced fraction. -/
def floorQ (q : ℚ) : ℤ := q.num.fdiv q.den

/-- Model of Python `round(x, nd)`: round half to even at `nd` decimal
places. -/
def pyRound (nd : ℕ) (q : ℚ) : ℚ :=
  let s : ℚ := q * (10 : ℚ) ^ nd
  let f : ℤ := floorQ s
  let r : ℤ :=
    if s - f < 1/2 then f
    else if (1:ℚ)/2 < s - f then f + 1
    else if f % 2 = 0 then f else f + 1
  (r : ℚ) / (10 : ℚ) ^ nd

/-! ### Proleptic Gregorian calendar

Model of the date arithmetic the Service Fusion script performs through
Python's `datetime` library (`strptime`, `fromisoformat`,
`timedelta(days=15)`, `strftime`).  A date is a `(year, month, day)` triple;
Python's `datetime` accepts years 1..9999 and raises `OverflowError` past
`datetime.max`. -/
/-- Gregorian leap-year test. -/
def isLeap (y : ℕ) : Bool :=
  if y % 4 = 0 then (if y % 100 = 0 then (if y % 400 = 0 then true else false) else true)
  else false

/-- Number of days in a month (0 for an out-of-range month index). -/
def daysInMonth (y : ℕ) : ℕ → ℕ
  | 1 => 31
  | 2 => if isLeap y then 29 else 28
  | 3 => 31
  | 4 => 30
  | 5 => 31
  | 6 => 30
  | 7 => 31
  | 8 => 31
  | 9 => 30
  | 10 => 31
  | 11 => 30
  | 12 => 31
  | _ => 0

/-- Validity of a `(year, month, day)` triple as a Python `datetime.date`
(with `MINYEAR = 1`). -/
def ValidDate (y m d : ℕ) : Prop :=
  1 ≤ y ∧ 1 ≤ m ∧ m ≤ 12 ∧ 1 ≤ d ∧ d ≤ daysInMonth y m

instance (y m d : ℕ) : Decidable (ValidDate y m d) := by
  unfold ValidDate; infer_instance

/-- Successor day in the Gregorian calendar. -/
def nextDay : ℕ × ℕ × ℕ → ℕ × ℕ × ℕ
  | (y, m, d) =>
    if d < daysInMonth y m then (y, m, d + 1)
    else if m < 12 then (y, m + 1, 1)
    else (y + 1, 1, 1)

/-- Adding `n` calendar days (model of `timedelta(days=n)` addition). -/
def addDays (n : ℕ) (x : ℕ × ℕ × ℕ) : ℕ × ℕ × ℕ := nextDay^[n] x

/-- Days in the months of year `y` strictly before month `m`. -/
def daysBeforeMonth (y : ℕ) : ℕ → ℕ
  | 0 => 0
  | 1 => 0
  | m + 2 => daysBeforeMonth y (m + 1) + daysInMonth y (m + 1)

/-- Number of leap years in `[1, y-1]`. -/
def leapsBefore (y : ℕ) : ℕ :=
  (y - 1) / 4 + (y - 1) / 400 - (y - 1) / 100

/-- Rata-die style absolute day number of a date: the claim that the due date
is "exactly 15 days" later is made precise through this linear day count. -/
def toOrdinal : ℕ × ℕ × ℕ → ℕ
  | (y, m, d) => 365 * (y - 1) + leapsBefore y + daysBeforeMonth y m + d

/-! ### Date string parsing and formatting

Models of the `datetime` parsing/formatting calls in
`project-dashboard-ytd.py` (`calculate_due_date`, lines 200–225):
`strptime(s[:10], s)` for plain dates, `fromisoformat` for strings with a
time component (restricted to the zero-padded, seconds-precision shapes the
script's data uses), and `strftime` for output. -/
/-- Render a date as `YYYY-MM-DD` (model of `strftime` with zero padding). -/
def fmtDateC (y m d : ℕ) : List Char :=
  padC 4 y ++ '-' :: (padC 2 m ++ '-' :: padC 2 d)

/-- Render a time as `HH:MM:SS`. -/
def fmtTimeC (h mi s : ℕ) : List Char :=
  padC 2 h ++ ':' :: (padC 2 mi ++ ':' :: padC 2 s)

/-- Shared date-component parser.  `strict` demands zero-padded 2-digit
month/day fields (as `fromisoformat` does); non-strict allows 1–2 digits (as
`strptime` `%m`/`%d` do).  The year field is always exactly 4 digits, and the
resulting triple must be a valid `datetime.date` (else Python raises
`ValueError`). -/
def parseDateCore (strict : Bool) (l : List Char) : Option (ℕ × ℕ × ℕ) :=
  match splitOnC '-' l with
  | [ys, ms, ds] =>
    if ys.length = 4 ∧
        (if strict then ms.length = 2 else 1 ≤ ms.length ∧ ms.length ≤ 2) ∧
        (if strict then ds.length = 2 else 1 ≤ ds.length ∧ ds.length ≤ 2) then
      match parseNatC ys, parseNatC ms, parseNatC ds with
      | some y, some m, some d => if ValidDate y m d then some (y, m, d) else none
      | _, _, _ => none
    else none
  | _ => none

/-- Model of `datetime.strptime(s, s)` with format `%Y-%m-%d` (caller
truncates to 10 characters first, as the script does with `date_str[:10]`). -/
def parseDate10 (l : List Char) : Option (ℕ × ℕ × ℕ) :=
  parseDateCore false l

/-- Optional UTC-offset suffix accepted after the seconds field
(`+HH:MM` / `-HH:MM`), as produced by the script's `Z` replacement. -/
def offsetOk (l : List Char) : Bool :=
  match l with
  | [] => true
  | c :: rest =>
    (c = '+' || c = '-') &&
      (match splitOnC ':' rest with
       | [a, b] =>
         a.length = 2 && b.length = 2 && a.all isDigitC && b.all isDigitC &&
           decide (digitsVal a ≤ 23) && decide (digitsVal b ≤ 59)
       | _ => false)

/-- Time-of-day parser for the `fromisoformat` model: `HH:MM:SS` optionally
followed by a UTC offset (the offset is parsed and then discarded, modelling
`.replace(tzinfo=None)`). -/
def parseTimeC (l : List Char) : Option (ℕ × ℕ × ℕ) :=
  match splitOnC ':' (l.take 8) with
  | [hs, ms, ss] =>
    if hs.length = 2 ∧ ms.length = 2 ∧ ss.length = 2 then
      match parseNatC hs, parseNatC ms, parseNatC ss with
      | some h, some mi, some s =>
        if h ≤ 23 ∧ mi ≤ 59 ∧ s ≤ 59 ∧ offsetOk (l.drop 8) then some (h, mi, s)
        else none
      | _, _, _ => none
    else none
  | _ => none

/-- Model of `datetime.fromisoformat` on the subset of inputs the script
feeds it: a zero-padded `YYYY-MM-DD` date, an arbitrary one-character
separator at position 10, and a seconds-precision time with optional
offset. -/
def parseIsoC (l : List Char) : Option ((ℕ × ℕ × ℕ) × (ℕ × ℕ × ℕ)) :=
  match parseDateCore true (l.take 10) with
  | none => none
  | some ymd =>
    match l.drop 10 with
    | [] => some (ymd, (0, 0, 0))
    | _sep :: tp =>
      match parseTimeC tp with
      | none => none
      | some t => some (ymd, t)

/-- Model of `s.replace('Z', '+00:00')`. -/
def replaceZ (l : List Char) : List Char :=
  l.flatMap (fun c => if c = 'Z' then ['+', '0', '0', ':', '0', '0'] else [c])

/-- Model of `ServiceFusionExtractor.calculate_due_date`
(`project-dashboard-ytd.py` lines 200–225): parse the invoice date, add
exactly 15 days, and format the result; any parse failure or `datetime`
overflow (year past 9999) is caught and yields `None`. -/
def calculate_due_date (invoice_date : Option String) : Option String :=
  match invoice_date with
  | none => none
  | some raw =>
    if raw.data = [] then none
    else if (trimChars raw.data).contains 'T' then
      match parseIsoC (if (trimChars raw.data).contains 'Z' then
          replaceZ (trimChars raw.data) else trimChars raw.data) with
      | none => none
      | some ((y, m, d), (h, mi, s)) =>
        if 9999 < (addDays 15 (y, m, d)).1 then none
        else
          some (String.mk
            (fmtDateC (addDays 15 (y, m, d)).1 (addDays 15 (y, m, d)).2.1
                (addDays 15 (y, m, d)).2.2 ++ 'T' ::
              (fmtTimeC h mi s ++ ['+', '0', '0', ':', '0', '0'])))
    else
      match parseDate10 ((trimChars raw.data).take 10) with
      | none => none
      | some (y, m, d) =>
        if 9999 < (addDays 15 (y, m, d)).1 then none
        else
          some (String.mk (fmtDateC (addDays 15 (y, m, d)).1
            (addDays 15 (y, m, d)).2.1 (addDays 15 (y, m, d)).2.2))

/-! ### Service Fusion data model (`project-dashboard-ytd.py`)

Currency totals are exact rationals (`ℚ`); the script's float tolerance
constant `0.1` is the rational `1/10`.  A missing dict key is `none`;
`job.get('total', 0) or 0` is modelled by storing a plain `ℚ` that is `0`
when the key is absent or null. -/
/-- An invoice as used by `create_powerbi_summary`: the `customer` key (empty
string when missing), the `total` (0 when missing/null), and the optional
`date` string. -/
structure Invoice where
  customer : String
  total : ℚ
  date : Option String
deriving DecidableEq

/-- Sort key used for the "Most Recent" fallback: `x.get('date', '')`. -/
def dateKey (i : Invoice) : String := i.date.getD ""

/-- A job (or estimate) record as consumed by `create_powerbi_summary`. -/
structure SfJob where
  id : Option ℕ
  number : Option String
  description : Option String
  customer_id : Option ℕ
  customer_name : Option String
  total : ℚ
  created_at : Option String
  start_date : Option String
  end_date : Option String
  category : Option String
  status : Option String
  payment_status : Option String
deriving DecidableEq

/-- Partition of the raw invoice list by customer (lines 251–257): an invoice
is filed under its `customer` key when that key is truthy; insertion order is
preserved, so `invoicesFor invs c` is exactly the candidate list
`invoices_by_customer.get(c, [])`. -/
def invoicesFor (invs : List Invoice) (c : String) : List Invoice :=
  invs.filter (fun i => i.customer ≠ "" ∧ i.customer = c)

/-- First invoice in input order whose total is positive and within 10%
relative tolerance of the job total (lines 287–295). -/
def amountScan (job_total : ℚ) : List Invoice → Option Invoice
  | [] => none
  | inv :: rest =>
    if 0 < inv.total ∧ |inv.total - job_total| / job_total ≤ 1/10 then some inv
    else amountScan job_total rest

/-- First invoice attaining the maximal date key: the head of
`sorted(customer_invoices, key=lambda x: x.get('date', ''), reverse=True)`
(Python's sort is stable, so ties keep input order; lines 297–303). -/
def mostRecent1 : List Invoice → Option Invoice
  | [] => none
  | inv :: rest =>
    some (rest.foldl
      (fun acc x => if lexLtB (dateKey acc).data (dateKey x).data then x else acc) inv)

/-- The invoice matcher of `create_powerbi_summary` (lines 278–303): amount
match first when the job total is positive, then most-recent fallback, else
no match.  Returns the chosen invoice and the `Invoice_Match_Method`
string. -/
def matchInvoice (job_total : ℚ) (customer_invoices : List Invoice) :
    Option Invoice × String :=
  match (if 0 < job_total then amountScan job_total customer_invoices else none) with
  | some inv => (some inv, "Amount Match")
  | none =>
    match mostRecent1 customer_invoices with
    | some inv => (some inv, "Most Recent")
    | none => (none, "None")

/-- One output row of the Power BI summary (lines 305–323). -/
structure SRecord where
  job_id : Option ℕ
  job_number : Option String
  job_name : String
  customer_id : Option ℕ
  customer_name : String
  job_created : Option String
  ecd : Option String
  invoice_date : Option String
  invoice_due : Option String
  job_value : ℚ
  invoice_total : Option ℚ
  category : String
  status : Option String
  payment_status : Option String
  has_invoice : Bool
  invoice_count : ℕ
  match_method : String
deriving DecidableEq

/-- Build the summary record for one job (lines 273–323).  The date columns
are kept as the strings the loop stores; the later `pd.to_datetime` coercion
of the date columns is presentation only and is not modelled. -/
def mkRecord (invoices : List Invoice) (job : SfJob) : SRecord :=
  let customer_name := job.customer_name.getD "Unknown"
  let customer_invoices := invoicesFor invoices customer_name
  let mr := matchInvoice job.total customer_invoices
  let rel := mr.1
  { job_id := job.id
    job_number := job.number
    job_name := job.description.getD "No Description"
    customer_id := job.customer_id
    customer_name := customer_name
    job_created := job.created_at
    ecd := job.end_date
    invoice_date := rel.bind (·.date)
    invoice_due := calculate_due_date (rel.bind (·.date))
    job_value := job.total
    invoice_total := rel.map (·.total)
    category := match job.category with
      | some c => if c = "" then "General" else c
      | none => "General"
    status := job.status
    payment_status := job.payment_status
    has_invoice := rel.isSome
    invoice_count := customer_invoices.length
    match_method := mr.2 }

/-- The per-job loop with its `processed_job_ids` duplicate filter
(lines 260–271): a job with a truthy id already seen is skipped; id-less
jobs are all processed. -/
def summarizeJobs (invoices : List Invoice) : List SfJob → List ℕ → List SRecord
  | [], _ => []
  | j :: rest, seen =>
    match j.id with
    | some i =>
      if i ∈ seen then summarizeJobs invoices rest seen
      else mkRecord invoices j :: summarizeJobs invoices rest (i :: seen)
    | none => mkRecord invoices j :: summarizeJobs invoices rest seen

/-- Model of `df.drop_duplicates(subset=['Job_ID'], keep='first')`
(line 337); pandas treats missing ids as equal, so at most one id-less row
survives. -/
def dedupByJobId : List SRecord → List (Option ℕ) → List SRecord
  | [], _ => []
  | r :: rest, seen =>
    if r.job_id ∈ seen then dedupByJobId rest seen
    else r :: dedupByJobId rest (r.job_id :: seen)

/-- Estimates promoted to jobs get `end_date` defaulted to `start_date` when
falsy (lines 242–244). -/
def estDefault (e : SfJob) : SfJob :=
  match e.end_date with
  | none => { e with end_date := e.start_date }
  | some s => if s = "" then { e with end_date := e.start_date } else e

/-- Model of `create_powerbi_summary` (lines 227–343): select the job source
(estimates stand in for jobs when there are no jobs but some estimates),
build one record per job with the duplicate-id filter, then apply the
dataframe-level duplicate drop. -/
def create_powerbi_summary (jobs estimates : List SfJob) (invoices : List Invoice) :
    List SRecord :=
  let jobs_data := if jobs = [] ∧ estimates ≠ [] then estimates.map estDefault else jobs
  if jobs_data = [] then []
  else dedupByJobId (summarizeJobs invoices jobs_data []) []

/-! ### Service Fusion paginated extraction (`extract_with_forced_sort`,
lines 87–198)

A remote API is a function from (page number, whether the `sort` parameter
was sent) to a response.  The loop is modelled with explicit fuel; `none`
means the loop was still running when the fuel ran out, which the theorems
show never happens from the real entry state thanks to the page cap.
Network exceptions (which `break` the loop) are not modelled; the `api`
function is total. -/
/-- Does `pat` occur at the start of `l`? -/
def startsWithC : List Char → List Char → Bool
  | [], _ => true
  | _ :: _, [] => false
  | a :: as_, b :: bs => a = b && startsWithC as_ bs

/-- Substring containment, modelling Python's `pat in s`. -/
def hasInfixC (pat : List Char) : List Char → Bool
  | [] => decide (pat = [])
  | c :: t => startsWithC pat (c :: t) || hasInfixC pat t

/-- A raw record returned by the API, reduced to the fields the loop
inspects. -/
structure SfRec where
  created_at : Option String
  date : Option String
deriving DecidableEq

/-- Model of `record.get('created_at') or record.get('date')` (Python `or`
falls through on falsy values). -/
def dateVal (r : SfRec) : Option String :=
  match r.created_at with
  | some s => if s = "" then r.date else some s
  | none => r.date

/-- Is the record kept by the YTD/MTD filter (lines 144–155)?  Records with
no (truthy) date are kept; otherwise kept iff the current year's digits occur
in the date string. -/
def sfKeep (yearS : List Char) (r : SfRec) : Bool :=
  match dateVal r with
  | none => true
  | some s => if s = "" then true else hasInfixC yearS s.data

/-- One page response: HTTP status, the `items` list, and the `_meta`
pagination fields (each independently optional). -/
structure SfResp where
  status : ℕ
  items : List SfRec
  currentPage : Option ℕ
  pageCount : Option ℕ

/-- One loop iteration after a 200 response (lines 129–184): either the loop
breaks with a final record list (`Sum.inl`) or continues to the next page
with the extended accumulator (`Sum.inr`).  The tests appear in source
order: empty page, old-data dominance (YTD/MTD only, never on page 1),
`_meta` pagination check, the 50,000-record cap, the 500-page cap. -/
def sfKeepList (yearS : List Char) (ytd : Bool) (items : List SfRec) : List SfRec :=
  if ytd then items.filter (sfKeep yearS) else items

def sfIter (yearS : List Char) (ytd : Bool) (page : ℕ) (acc : List SfRec)
    (resp : SfResp) : List SfRec ⊕ List SfRec :=
  if resp.items = [] then Sum.inl acc
  else if ytd ∧
      2 * (resp.items.length - (sfKeepList yearS ytd resp.items).length) >
        resp.items.length ∧ 1 < page then
    Sum.inl (acc ++ sfKeepList yearS ytd resp.items)
  else if resp.pageCount.getD 999 ≤ resp.currentPage.getD page then
    Sum.inl (acc ++ sfKeepList yearS ytd resp.items)
  else if 50000 ≤ (acc ++ sfKeepList yearS ytd resp.items).length then
    Sum.inl (acc ++ sfKeepList yearS ytd resp.items)
  else if 500 < page then Sum.inl (acc ++ sfKeepList yearS ytd resp.items)
  else Sum.inr (acc ++ sfKeepList yearS ytd resp.items)

/-- The pagination loop (lines 108–191).  Each iteration requests
`(page, sorted := true)`; a non-200 on page 1 triggers one retry without the
sort parameter (lines 119–127), a non-200 elsewhere breaks with the records
accumulated so far.  The result also carries the list of issued requests
`(page, sortedFlag)`. -/
def sfGo (api : ℕ → Bool → SfResp) (yearS : List Char) (ytd : Bool) :
    ℕ → ℕ → List SfRec → List (ℕ × Bool) → Option (List SfRec × List (ℕ × Bool))
  | 0, _, _, _ => none
  | fuel + 1, page, acc, reqs =>
    if (api page true).status = 200 then
      match sfIter yearS ytd page acc (api page true) with
      | Sum.inl res => some (res, reqs ++ [(page, true)])
      | Sum.inr acc' => sfGo api yearS ytd fuel (page + 1) acc' (reqs ++ [(page, true)])
    else if page = 1 then
      if (api 1 false).status = 200 then
        match sfIter yearS ytd page acc (api 1 false) with
        | Sum.inl res => some (res, reqs ++ [(page, true), (page, false)])
        | Sum.inr acc' =>
          sfGo api yearS ytd fuel (page + 1) acc' (reqs ++ [(page, true), (page, false)])
      else some (acc, reqs ++ [(page, true), (page, false)])
    else some (acc, reqs ++ [(page, true)])

/-- Entry point of the paginated extractor: page 1, empty accumulator.  Fuel
502 is enough for the capped page range, as proved below. -/
def extract_with_forced_sort (api : ℕ → Bool → SfResp) (yearS : List Char)
    (ytd : Bool) : Option (List SfRec × List (ℕ × Bool)) :=
  sfGo api yearS ytd 502 1 [] []

/-- Spreadsheet cell values as written by either script. -/
inductive Cell where
  | str (v : String)
  | num (v : ℚ)
  | bool (v : Bool)
  | null
deriving DecidableEq

/-- Optional-value cells (pandas renders missing values as empty cells). -/
def ostr : Option String → Cell
  | some v => Cell.str v
  | none => Cell.null

def onat : Option ℕ → Cell
  | some v => Cell.num v
  | none => Cell.null

def onum : Option ℚ → Cell
  | some v => Cell.num v
  | none => Cell.null

/-- Header of the `PowerBI_Summary` sheet (written explicitly when the
summary is empty, lines 385–393; identical to the dataframe columns
otherwise). -/
def sfHeaderRow : List Cell :=
  [Cell.str "Job_ID", Cell.str "Job_Number", Cell.str "Job_Name",
   Cell.str "Customer_ID", Cell.str "Customer_Name", Cell.str "Job_Created_Date",
   Cell.str "ECD_Estimated_Completion_Date", Cell.str "Invoice_Date",
   Cell.str "Invoice_ECD_Due_Date", Cell.str "Job_Project_Value",
   Cell.str "Invoice_Total", Cell.str "Business_Category", Cell.str "Job_Status",
   Cell.str "Payment_Status", Cell.str "Has_Related_Invoices",
   Cell.str "Invoice_Count", Cell.str "Invoice_Match_Method"]

/-- Cells of one summary row. -/
def sRecordRow (r : SRecord) : List Cell :=
  [onat r.job_id, ostr r.job_number, Cell.str r.job_name, onat r.customer_id,
   Cell.str r.customer_name, ostr r.job_created, ostr r.ecd, ostr r.invoice_date,
   ostr r.invoice_due, Cell.num r.job_value, onum r.invoice_total,
   Cell.str r.category, ostr r.status, ostr r.payment_status,
   Cell.bool r.has_invoice, Cell.num r.invoice_count, Cell.str r.match_method]

/-- Model of `save_to_excel` (lines 371–419): sheet list of the output
workbook.  `now` is the wall-clock timestamp written into the extraction
summary.  Raw per-endpoint sheets appear only for nonempty endpoint data
(line 410); their cell contents are abstracted to the record count since no
claim inspects them. -/
def save_to_excel (now : String) (customers jobs estimates : List SfJob)
    (invoices : List Invoice) : List (String × List (List Cell)) :=
  let summary := create_powerbi_summary jobs estimates invoices
  let powerbi :=
    if summary ≠ [] then ("PowerBI_Summary", sfHeaderRow :: summary.map sRecordRow)
    else ("PowerBI_Summary", [sfHeaderRow])
  let extraction :=
    ("Extraction_Summary",
      [Cell.str "Endpoint", Cell.str "Record Count", Cell.str "Extracted At"] ::
        [[Cell.str "customers", Cell.num customers.length, Cell.str now],
         [Cell.str "jobs", Cell.num jobs.length, Cell.str now],
         [Cell.str "estimates", Cell.num estimates.length, Cell.str now],
         [Cell.str "invoices", Cell.num invoices.length, Cell.str now]])
  let raw := [("customers", customers.length), ("jobs", jobs.length),
              ("estimates", estimates.length), ("invoices", invoices.length)]
  powerbi :: extraction ::
    (raw.filterMap (fun er =>
      if er.2 ≠ 0 then some (er.1, [[Cell.num er.2]]) else none))

/-! ### Kimai data model (`kimai_payroll_engineering.py`)

Timestamps here are seconds in the already-converted local timezone
(`US/Eastern` conversion happens upstream of the logic under claim); rows
whose timestamps failed to parse have been dropped by the script's `dropna`
before any grouped processing, so entries carry plain `ℕ` timestamps. -/
/-- The fixed expected-customer roster (lines 29–41). -/
def EXPECTED_CUSTOMERS : List String :=
  ["Bluewater Operations", "Construction", "DUKE", "Fire Dragon", "Flock",
   "General Admin", "Lumen", "Redspeed", "SCC- Miami Dade", "TECO", "TDS"]

/-- Generic insertion into a Bool-ordered list (ascending). -/
def insertLe {α : Type} (le : α → α → Bool) (x : α) : List α → List α
  | [] => [x]
  | y :: ys => if le x y then x :: y :: ys else y :: insertLe le x ys

/-- Insertion sort with a Bool-valued order. -/
def sortByLe {α : Type} (le : α → α → Bool) : List α → List α
  | [] => []
  | x :: xs => insertLe le x (sortByLe le xs)

/-- One timesheet entry of a (user, day) group: local begin/end seconds. -/
structure Entry where
  beginT : ℕ
  endT : ℕ
deriving DecidableEq

/-- Local hour of a local-seconds timestamp (`.hour`). -/
def hourOf (t : ℕ) : ℕ := t / 3600 % 24

/-- Gap between the end of one entry and the begin of the next, in seconds
(`gap.total_seconds()`, possibly negative for overlapping entries). -/
def gapSec (e1 e2 : Entry) : ℤ := (e2.beginT : ℤ) - (e1.endT : ℤ)

/-- The break acceptance test (lines 196–198): gap duration in
`[300 s, 3600 s]` and both boundary local hours in `[10, 16]`. -/
def validBreakPair (e1 e2 : Entry) : Bool :=
  decide (300 ≤ gapSec e1 e2 ∧ gapSec e1 e2 ≤ 3600) &&
    decide (10 ≤ hourOf e1.endT ∧ hourOf e1.endT ≤ 16 ∧
      10 ≤ hourOf e2.beginT ∧ hourOf e2.beginT ≤ 16)

/-- Clock-time rendering `%H:%M:%S` of a local-seconds timestamp. -/
def fmtClock (t : ℕ) : String :=
  String.mk (fmtTimeC (t / 3600 % 24) (t / 60 % 60) (t % 60))

/-- One entry of the `break_details` list (lines 200–205). -/
structure BreakDetail where
  break_start : String
  break_end : String
  break_duration_hours : ℚ
  break_duration_minutes : ℚ
deriving DecidableEq

/-- Detail row for one accepted gap. -/
def mkDetail (e1 e2 : Entry) : BreakDetail :=
  { break_start := fmtClock e1.endT
    break_end := fmtClock e2.beginT
    break_duration_hours := pyRound 2 ((gapSec e1 e2 : ℚ) / 3600)
    break_duration_minutes := pyRound 1 ((gapSec e1 e2 : ℚ) / 60) }

/-- The scan over consecutive entries of a sorted group (lines 191–206):
collects the accepted gaps in order together with the running
`total_break_time` in seconds. -/
def breaksScan : List Entry → List BreakDetail × ℤ
  | [] => ([], 0)
  | [_] => ([], 0)
  | e1 :: e2 :: rest =>
    let t := breaksScan (e2 :: rest)
    if validBreakPair e1 e2 then (mkDetail e1 e2 :: t.1, gapSec e1 e2 + t.2)
    else t

/-- Ascending order on entries by begin time, used for
`group.sort_values('begin_local')`. -/
def entryLe (e1 e2 : Entry) : Bool := decide (e1.beginT ≤ e2.beginT)

/-- Alias resolution with the `User_<id>` fallback (line 181). -/
def aliasOf (users : List (String × String)) (uid : String) : String :=
  (users.lookup uid).getD ("User_" ++ uid)

/-- One emitted break record (lines 208–221).  `date` is the local calendar
day number; the `date_formatted` presentation column is not modelled. -/
structure BreakRecord where
  user : String
  user_id : String
  date : ℕ
  total_breaks : ℕ
  total_break_hours : ℚ
  total_break_minutes : ℚ
  break_details : List BreakDetail
  first_work_start : String
  last_work_end : String
  total_work_entries : ℕ
deriving DecidableEq

/-- Per-(user, day) break computation (lines 180–221): sort by begin time,
skip groups with fewer than two entries, scan consecutive pairs, and emit a
record only when at least one break was accepted. -/
def breaksForGroup (users : List (String × String)) (uid : String) (day : ℕ)
    (g : List Entry) : Option BreakRecord :=
  if (sortByLe entryLe g).length < 2 then none
  else if (breaksScan (sortByLe entryLe g)).1 = [] then none
  else
    match sortByLe entryLe g with
    | [] => none
    | e0 :: _ =>
      some
        { user := aliasOf users uid
          user_id := uid
          date := day
          total_breaks := (breaksScan (sortByLe entryLe g)).1.length
          total_break_hours := pyRound 2 (((breaksScan (sortByLe entryLe g)).2 : ℚ) / 3600)
          total_break_minutes := pyRound 1 (((breaksScan (sortByLe entryLe g)).2 : ℚ) / 60)
          break_details := (breaksScan (sortByLe entryLe g)).1
          first_work_start := fmtClock e0.beginT
          last_work_end := fmtClock (((sortByLe entryLe g).getLast? ).getD e0 |>.endT)
          total_work_entries := (sortByLe entryLe g).length }

/-- A raw timesheet row as grouped by the break calculator: user id and
local begin/end seconds. -/
structure TsTimes where
  user : String
  beginT : ℕ
  endT : ℕ
deriving DecidableEq

/-- Local calendar day of a row (grouping key `date_only`). -/
def dayOf (r : TsTimes) : ℕ := r.beginT / 86400

/-- Ascending order on (user, day) group keys, mirroring the sorted group
keys of `pandas.groupby`. -/
def keyLe (a b : String × ℕ) : Bool :=
  lexLtB a.1.data b.1.data || (a.1 = b.1 && decide (a.2 ≤ b.2))

/-- Model of `calculate_breaks_from_raw_data` (lines 155–224): group rows by
(user id, local day), compute per-group break records, keep groups that
produced one. -/
def calculate_breaks_from_raw_data (users : List (String × String))
    (rows : List TsTimes) : List BreakRecord :=
  let keys := sortByLe keyLe ((rows.map (fun r => (r.user, dayOf r))).dedup)
  keys.filterMap (fun k =>
    breaksForGroup users k.1 k.2
      ((rows.filter (fun r => r.user = k.1 ∧ dayOf r = k.2)).map
        (fun r => Entry.mk r.beginT r.endT)))

/-- A raw timesheet row as consumed by `process_timesheet_mappings`: the
foreign-key id columns (already stringified) plus begin time and duration in
seconds. -/
structure RawRow where
  user : String
  project : String
  activity : String
  beginT : ℕ
  durationSec : ℚ
deriving DecidableEq

/-- A mapped timesheet row after id resolution (lines 250–288): the
`.map(dict)` calls turn unresolvable ids into missing values (`none`).
`customer` is the project's `parentTitle`.  Presentation columns (`price`,
`total`, `Week`, formatted date) are constants or unexamined by any claim
and are not modelled. -/
structure MRow where
  activity : Option String
  project : Option String
  customer : Option String
  user : Option String
  dateDay : ℕ
  duration : ℚ
deriving DecidableEq

/-- The id-resolution step of `process_timesheet_mappings` (lines 250–275):
dictionary lookups returning `none` for unresolved ids, and the duration
conversion `round(duration / 3600, 2)`. -/
def mapRows (activities projects parentTitles users : List (String × String))
    (raws : List RawRow) : List MRow :=
  raws.map (fun r =>
    { activity := activities.lookup r.activity
      project := projects.lookup r.project
      customer := parentTitles.lookup r.project
      user := users.lookup r.user
      dateDay := r.beginT / 86400
      duration := pyRound 2 (r.durationSec / 3600) })

/-- Rows remaining after the `customer != "General Admin"` filter
(line 302); pandas `!=` keeps rows with a missing customer. -/
def dfCustomers (rows : List MRow) : List MRow :=
  rows.filter (fun r => r.customer ≠ some "General Admin")

/-- Grouping key (customer, user); `none` when either id is unresolved, in
which case `pandas.groupby` silently drops the row. -/
def keyCU (r : MRow) : Option (String × String) :=
  match r.customer, r.user with
  | some c, some u => some (c, u)
  | _, _ => none

/-- Ascending order on (customer, user) keys. -/
def keyCULe (a b : String × String) : Bool :=
  lexLtB a.1.data b.1.data || (a.1 = b.1 && !lexLtB b.2.data a.2.data)

/-- Model of `grouped_total_ytd` (line 316): duration sums grouped by
(customer, user) with sorted group keys; rows with a missing key are
dropped, exactly as `pandas.groupby` does. -/
def groupedTotal (rows : List MRow) : List ((String × String) × ℚ) :=
  (sortByLe keyCULe ((rows.filterMap keyCU).dedup)).map (fun k =>
    (k, ((rows.filter (fun r => keyCU r = some k)).map (fun r => r.duration)).sum))

/-- Customers appearing in the grouped totals (lines 373–375). -/
def customersWithData (rows : List MRow) : List String :=
  ((groupedTotal rows).map (fun g => g.1.1)).dedup

/-- Grouping key (user, project, activity) for the per-customer detail
aggregation (line 388). -/
def keyUPA (r : MRow) : Option (String × String × String) :=
  match r.user, r.project, r.activity with
  | some u, some p, some a => some (u, p, a)
  | _, _, _ => none

/-- Ascending order on (user, project, activity) keys. -/
def keyUPALe (a b : String × String × String) : Bool :=
  lexLtB a.1.data b.1.data ||
    (a.1 = b.1 &&
      (lexLtB a.2.1.data b.2.1.data ||
        (a.2.1 = b.2.1 && !lexLtB b.2.2.data a.2.2.data)))

/-- Per-customer detail sums grouped by (user, project, activity). -/
def groupedUPA (rows : List MRow) (c : String) : List ((String × String × String) × ℚ) :=
  (sortByLe keyUPALe (((rows.filter (fun r => r.customer = some c)).filterMap keyUPA).dedup)).map
    (fun k =>
      (k, (((rows.filter (fun r => r.customer = some c)).filter
        (fun r => keyUPA r = some k)).map (fun r => r.duration)).sum))

/-- Sheet-name truncation `str(customer)[:31]` (line 383). -/
def strTake31 (s : String) : String := String.mk (s.data.take 31)

/-- Fixed header row of each per-customer sheet (lines 391 and 416). -/
def custHeaderRow : List Cell :=
  [Cell.str "EmployeeName", Cell.str "EmployeeHours", Cell.str "ProjectName",
   Cell.str "ActivityName", Cell.str "ActivityHours", Cell.str "CustomerTotal"]

/-- The zero-valued placeholder row written for a roster customer with no
data (line 417). -/
def placeholderRow : List Cell :=
  [Cell.str "", Cell.num 0, Cell.str "", Cell.str "", Cell.num 0, Cell.num 0]

/-- Data rows of a customer sheet when the customer has data
(lines 386–412). -/
def custDataRows (rows : List MRow) (c : String) : List (List Cell) :=
  let gt := groupedTotal rows
  let customer_total := gt.filter (fun g => g.1.1 = c)
  let customer_detailed := groupedUPA rows c
  let customer_total_hours := pyRound 2 ((customer_total.map (fun g => g.2)).sum)
  customer_total.flatMap (fun g =>
    let employee := g.1.2
    let total_hours := pyRound 2 g.2
    let emp_acts := customer_detailed.filter (fun e => e.1.1 = employee)
    if emp_acts ≠ [] then
      emp_acts.map (fun e =>
        [Cell.str employee, Cell.num total_hours, Cell.str e.1.2.1,
         Cell.str e.1.2.2, Cell.num (pyRound 2 e.2), Cell.num customer_total_hours])
    else
      [[Cell.str employee, Cell.num total_hours, Cell.str "", Cell.str "",
        Cell.num 0, Cell.num customer_total_hours]])

/-- The roster the per-customer loop iterates over:
`set(EXPECTED_CUSTOMERS) - set(["General Admin"])` (line 377) as a list;
Python iterates this set in a hash-dependent order, modelled by passing a
permutation of this list to `createCustomerSheetsOrd`. -/
def rosterBase : List String :=
  EXPECTED_CUSTOMERS.filter (fun c => c ≠ "General Admin")

/-- The per-customer sheet loop of `create_customer_reports`
(lines 372–417), parametrised by the set-iteration order `ord`: one sheet
per roster customer, with header-plus-data rows for customers with grouped
data and header-plus-placeholder otherwise. -/
def createCustomerSheetsOrd (ord : List String) (rows : List MRow) :
    List (String × List (List Cell)) :=
  ord.map (fun customer =>
    (strTake31 customer,
      if customer ∈ customersWithData (dfCustomers rows) then
        custHeaderRow :: custDataRows (dfCustomers rows) customer
      else [custHeaderRow, placeholderRow]))

/-- The per-customer sheets in the canonical roster order. -/
def create_customer_reports (rows : List MRow) : List (String × List (List Cell)) :=
  createCustomerSheetsOrd rosterBase rows

/-! ### Kimai fetch and top-level control flow -/
/-- One response of the paginated Kimai timesheets endpoint: HTTP status and
the JSON list payload (records abstracted to `ℕ`). -/
structure KResp where
  status : ℕ
  data : List ℕ

/-- The paginated fetch loop of `fetch_api_data` (lines 102–127), with fuel:
`none` means the loop is still running after `fuel` page requests.  The
source has no record or page cap: the loop ends only on an empty page, a
non-200 response, or an exception. -/
def kimaiGo (api : ℕ → KResp) : ℕ → ℕ → List (List ℕ) → Option (List (List ℕ))
  | 0, _, _ => none
  | fuel + 1, page, dfList =>
    if (api page).status = 200 then
      if (api page).data ≠ [] then kimaiGo api fuel (page + 1) (dfList ++ [(api page).data])
      else some dfList
    else some dfList

/-- Model of the endpoint-result collection of `fetch_api_data`
(lines 147–151): an endpoint contributes a dataframe only when it returned a
nonempty record list. -/
def dataframesOf (ts acts projs users : List ℕ) : List (String × List ℕ) :=
  (if ts ≠ [] then [("Timesheets", ts)] else []) ++
    (if acts ≠ [] then [("Activities", acts)] else []) ++
      (if projs ≠ [] then [("Projects", projs)] else []) ++
        (if users ≠ [] then [("Users", users)] else [])

/-- The required-sheet check of `process_timesheet_mappings`
(lines 229–231). -/
def hasAllSheets (dfs : List (String × List ℕ)) : Bool :=
  ["Timesheets", "Activities", "Projects", "Users"].all
    (fun n => dfs.any (fun df => df.1 = n))

/-- Control flow of `main` (lines 583–608) given the per-endpoint record
lists: returns the output filename when the run succeeds, `none` when it
fails (exit code 1, no report written).  With the required sheets present
the report-building steps cannot fail short of an I/O exception, which is
not modelled. -/
def kimaiRunOutput (ts acts projs users : List ℕ) : Option String :=
  let dfs := dataframesOf ts acts projs users
  if dfs = [] then none
  else if ¬hasAllSheets dfs then none
  else some "Kimai_Customer_Reports_YTD.xlsx"

/-- Adjacent pairs of a list (entry `i` with entry `i+1`). -/
def adjPairs (l : List Entry) : List (Entry × Entry) := l.zip l.tail

/-- The adjacent pairs of a sorted group accepted by the break test: the
specification-side description of which gaps become breaks. -/
def acceptedPairs (l : List Entry) : List (Entry × Entry) :=
  (adjPairs l).filter (fun p => validBreakPair p.1 p.2)

/-! ### Theorems: invoice matcher (claim C2) -/
/-- The amount-match acceptance test as a predicate: positive invoice total
within 10% relative tolerance of the job total. -/
def qualInv (job_total : ℚ) (i : Invoice) : Prop :=
  0 < i.total ∧ |i.total - job_total| / job_total ≤ 1/10

/-! ### Theorems: pagination request discipline (claim C7) -/
/-- The response the loop body ends up using for page `p`: the sorted
request when it returns 200, else (page 1 only) the unsorted retry when that
returns 200, else none (the loop breaks). -/
def effResp (api : ℕ → Bool → SfResp) (p : ℕ) : Option SfResp :=
  if (api p true).status = 200 then some (api p true)
  else if p = 1 ∧ (api p false).status = 200 then some (api p false)
  else none

/-- Page `p` was successfully fetched with a nonempty record list. -/
def goodPage (api : ℕ → Bool → SfResp) (p : ℕ) : Prop :=
  ∃ resp, effResp api p = some resp ∧ resp.items ≠ []

/-! ### Basic lemmas about the string helpers -/
theorem digitVal_digitChar {k : ℕ} (h : k < 10) : digitVal (digitChar k) = k := by
  interval_cases k <;> rfl

theorem isDigitC_digitChar {k : ℕ} (h : k < 10) : isDigitC (digitChar k) = true := by
  interval_cases k <;> rfl

theorem natDigits_ne_nil (n : ℕ) : natDigits n ≠ [] := by
  rw [natDigits]
  split <;> simp

theorem natDigits_all_digit (n : ℕ) : (natDigits n).all isDigitC = true := by
  induction n using Nat.strong_induction_on with
  | _ n ih =>
    rw [natDigits]
    split
    · simp [isDigitC_digitChar ‹n < 10›]
    · rename_i h
      have := ih (n / 10) (Nat.div_lt_self (by omega) (by omega))
      simp only [List.all_append, this, Bool.true_and, List.all_cons, List.all_nil,
        Bool.and_true]
      exact isDigitC_digitChar (Nat.mod_lt _ (by omega))

theorem digitsVal_append (l : List Char) (c : Char) :
    digitsVal (l ++ [c]) = 10 * digitsVal l + digitVal c := by
  simp [digitsVal, List.foldl_append]

theorem digitsVal_natDigits (n : ℕ) : digitsVal (natDigits n) = n := by
  induction n using Nat.strong_induction_on with
  | _ n ih =>
    rw [natDigits]
    split
    · simp [digitsVal, digitVal_digitChar ‹n < 10›]
    · rename_i h
      rw [digitsVal_append, ih (n / 10) (Nat.div_lt_self (by omega) (by omega)),
        digitVal_digitChar (Nat.mod_lt _ (by omega))]
      omega

theorem natDigits_length_le {n k : ℕ} (hk : 1 ≤ k) (h : n < 10 ^ k) :
    (natDigits n).length ≤ k := by
  induction n using Nat.strong_induction_on generalizing k with
  | _ n ih =>
    rw [natDigits]
    split
    · simpa using hk
    · rename_i hn
      have hk2 : 2 ≤ k := by
        by_contra hlt
        have : k = 1 := by omega
        subst this
        simp at h
        omega
      have hdiv : n / 10 < 10 ^ (k - 1) := by
        have : n < 10 ^ (k - 1) * 10 := by
          have : 10 ^ k = 10 ^ (k - 1) * 10 := by
            conv_lhs => rw [show k = (k - 1) + 1 by omega]
            rw [pow_succ]
          omega
        omega
      have := ih (n / 10) (Nat.div_lt_self (by omega) (by omega)) (k := k - 1)
        (by omega) hdiv
      simp only [List.length_append, List.length_cons, List.length_nil]
      omega

theorem digitsVal_lt (l : List Char) (hd : l.all isDigitC = true) :
    digitsVal l < 10 ^ l.length := by
  induction l using List.reverseRecOn with
  | nil => simp [digitsVal]
  | append_singleton l c ih =>
    simp only [List.all_append, List.all_cons, List.all_nil, Bool.and_true,
      Bool.and_eq_true] at hd
    have h1 := ih hd.1
    have hc : digitVal c ≤ 9 := by
      have := hd.2
      simp only [isDigitC, decide_eq_true_eq] at this
      simp only [digitVal]
      omega
    rw [digitsVal_append]
    simp only [List.length_append, List.length_cons, List.length_nil, pow_succ]
    omega

theorem padC_length {w n : ℕ} (hw : 1 ≤ w) (h : n < 10 ^ w) :
    (padC w n).length = w := by
  have := natDigits_length_le hw h
  simp only [padC, List.length_append, List.length_replicate]
  omega

theorem padC_all_digit (w n : ℕ) : (padC w n).all isDigitC = true := by
  simp only [padC, List.all_append, Bool.and_eq_true]
  refine ⟨?_, natDigits_all_digit n⟩
  simp only [List.all_eq_true]
  intro c hc
  rw [List.eq_of_mem_replicate hc]
  rfl

theorem padC_ne_nil (w n : ℕ) : padC w n ≠ [] := by
  simp only [padC, ne_eq, List.append_eq_nil]
  intro ⟨_, h⟩
  exact natDigits_ne_nil n h

theorem digitsVal_replicate_zero (k : ℕ) (l : List Char) :
    digitsVal (List.replicate k '0' ++ l) = digitsVal l := by
  induction k with
  | zero => simp
  | succ k ih =>
    simp only [List.replicate_succ, List.cons_append]
    show digitsVal (('0' :: (List.replicate k '0' ++ l))) = _
    simp only [digitsVal, List.foldl_cons] at *
    have : 10 * 0 + digitVal '0' = 0 := by rfl
    rw [this]
    exact ih

theorem parseNatC_padC (w n : ℕ) :
    parseNatC (padC w n) = some n := by
  rw [parseNatC, if_pos ⟨padC_ne_nil w n, padC_all_digit w n⟩]
  rw [padC, digitsVal_replicate_zero, digitsVal_natDigits]

/-- Characters of a left-zero-padded number are digits. -/
theorem mem_padC_digit {c : Char} {w n : ℕ} (h : c ∈ padC w n) : isDigitC c = true := by
  have := padC_all_digit w n
  simp only [List.all_eq_true] at this
  exact this c h

theorem isDigitC_not_spc {c : Char} (h : isDigitC c = true) : isSpc c = false := by
  by_contra hs
  rw [Bool.not_eq_false] at hs
  simp only [isSpc, Bool.or_eq_true, decide_eq_true_eq] at hs
  rcases hs with ((hc | hc) | hc) | hc <;> (subst hc; exact absurd h (by decide))

theorem dropWhile_eq_self_of_all {p : Char → Bool} {l : List Char}
    (h : ∀ c ∈ l, p c = false) : l.dropWhile p = l := by
  cases l with
  | nil => rfl
  | cons c cs =>
    rw [List.dropWhile_cons, if_neg]
    simp [h c (by simp)]

theorem trimChars_eq_self {l : List Char} (h : ∀ c ∈ l, isSpc c = false) :
    trimChars l = l := by
  unfold trimChars
  rw [dropWhile_eq_self_of_all h, dropWhile_eq_self_of_all (by simpa using h),
    List.reverse_reverse]

theorem splitOnC_not_mem {sep : Char} {l : List Char} (h : sep ∉ l) :
    splitOnC sep l = [l] := by
  induction l with
  | nil => rfl
  | cons c cs ih =>
    simp only [List.mem_cons, not_or] at h
    rw [splitOnC, if_neg (fun e => h.1 e.symm), ih h.2]

theorem splitOnC_append {sep : Char} {a b : List Char} (h : sep ∉ a) :
    splitOnC sep (a ++ sep :: b) = a :: splitOnC sep b := by
  induction a with
  | nil => simp [splitOnC]
  | cons c cs ih =>
    simp only [List.mem_cons, not_or] at h
    simp only [List.cons_append]
    rw [splitOnC, if_neg (fun e => h.1 e.symm), ih h.2]

/-! ### Lexicographic order: strictness lemmas used for the most-recent
invoice fallback -/
theorem lexLtB_irrefl (l : List Char) : lexLtB l l = false := by
  induction l with
  | nil => rfl
  | cons c cs ih =>
    rw [lexLtB]
    simp [ih]

theorem lexLtB_trans {a b c : List Char} (h1 : lexLtB a b = true)
    (h2 : lexLtB b c = true) : lexLtB a c = true := by
  induction a generalizing b c with
  | nil =>
    cases c with
    | nil =>
      cases b with
      | nil => exact h1
      | cons y ys => simp [lexLtB] at h2
    | cons z zs => rfl
  | cons x xs ih =>
    cases b with
    | nil => simp [lexLtB] at h1
    | cons y ys =>
      cases c with
      | nil => simp [lexLtB] at h2
      | cons z zs =>
        rw [lexLtB] at h1 h2 ⊢
        by_cases hxy : x.toNat < y.toNat
        · by_cases hyz : y.toNat < z.toNat
          · rw [if_pos (by omega)]
          · rw [if_neg hyz] at h2
            by_cases hzy : z.toNat < y.toNat
            · rw [if_pos hzy] at h2
              exact absurd h2 (by simp)
            · rw [if_pos (by omega)]
        · rw [if_neg hxy] at h1
          by_cases hyx : y.toNat < x.toNat
          · rw [if_pos hyx] at h1
            exact absurd h1 (by simp)
          · rw [if_neg hyx] at h1
            by_cases hyz : y.toNat < z.toNat
            · rw [if_pos (by omega)]
            · rw [if_neg hyz] at h2
              by_cases hzy : z.toNat < y.toNat
              · rw [if_pos hzy] at h2
                exact absurd h2 (by simp)
              · rw [if_neg hzy] at h2
                rw [if_neg (by omega), if_neg (by omega)]
                exact ih h1 h2

theorem daysInMonth_pos {y m : ℕ} (h1 : 1 ≤ m) (h2 : m ≤ 12) :
    1 ≤ daysInMonth y m := by
  interval_cases m <;> simp [daysInMonth] <;> split <;> omega

theorem daysInMonth_le {y m : ℕ} : daysInMonth y m ≤ 31 := by
  rcases m with _ | _ | _ | _ | _ | _ | _ | _ | _ | _ | _ | _ | _ | m <;>
    simp [daysInMonth] <;> first
      | (split <;> omega)
      | omega

theorem nextDay_eq_inc {y m d : ℕ} (h1 : d < daysInMonth y m) :
    nextDay (y, m, d) = (y, m, d + 1) := by
  simp [nextDay, h1]

theorem nextDay_eq_month {y m d : ℕ} (h1 : ¬d < daysInMonth y m) (h2 : m < 12) :
    nextDay (y, m, d) = (y, m + 1, 1) := by
  simp [nextDay, h1, h2]

theorem nextDay_eq_year {y m d : ℕ} (h1 : ¬d < daysInMonth y m) (h2 : ¬m < 12) :
    nextDay (y, m, d) = (y + 1, 1, 1) := by
  simp [nextDay, h1, h2]

theorem valid_nextDay {y m d : ℕ} (h : ValidDate y m d) :
    ValidDate (nextDay (y, m, d)).1 (nextDay (y, m, d)).2.1 (nextDay (y, m, d)).2.2 := by
  obtain ⟨hy, hm1, hm2, hd1, hd2⟩ := h
  by_cases h1 : d < daysInMonth y m
  · rw [nextDay_eq_inc h1]
    show ValidDate y m (d + 1)
    exact ⟨hy, hm1, hm2, by omega, by omega⟩
  · by_cases h2 : m < 12
    · rw [nextDay_eq_month h1 h2]
      show ValidDate y (m + 1) 1
      exact ⟨hy, by omega, by omega, le_refl 1,
        daysInMonth_pos (by omega) (by omega)⟩
    · rw [nextDay_eq_year h1 h2]
      show ValidDate (y + 1) 1 1
      exact ⟨by omega, le_refl 1, by omega, le_refl 1,
        daysInMonth_pos (by omega) (by omega)⟩

theorem daysBeforeMonth_succ (y : ℕ) {m : ℕ} (h : 1 ≤ m) :
    daysBeforeMonth y (m + 1) = daysBeforeMonth y m + daysInMonth y m := by
  cases m with
  | zero => omega
  | succ k => rfl

theorem succ_div_mod (y k : ℕ) (hy : 1 ≤ y) (hk : 0 < k) :
    y / k = (y - 1) / k + if y % k = 0 then 1 else 0 := by
  have hy1 : y - 1 + 1 = y := by omega
  conv_lhs => rw [← hy1]
  rw [Nat.succ_div, hy1]
  congr 1
  by_cases c : k ∣ y
  · rw [if_pos c, if_pos ((Nat.dvd_iff_mod_eq_zero ..).mp c)]
  · rw [if_neg c, if_neg (fun hc => c (Nat.dvd_of_mod_eq_zero hc))]

theorem leapsBefore_succ {y : ℕ} (hy : 1 ≤ y) :
    leapsBefore (y + 1) = leapsBefore y + (if isLeap y then 1 else 0) := by
  have h4 := succ_div_mod y 4 hy (by omega)
  have h100 := succ_div_mod y 100 hy (by omega)
  have h400 := succ_div_mod y 400 hy (by omega)
  have hmono : (y - 1) / 100 ≤ (y - 1) / 4 :=
    Nat.div_le_div_left (by omega) (by omega)
  unfold leapsBefore
  simp only [Nat.add_sub_cancel]
  rw [h4, h100, h400]
  by_cases c4 : y % 4 = 0
  · by_cases c100 : y % 100 = 0
    · by_cases c400 : y % 400 = 0
      · have hl : isLeap y = true := by
          unfold isLeap
          rw [if_pos c4, if_pos c100, if_pos c400]
        rw [if_pos c4, if_pos c100, if_pos c400, hl, if_pos rfl]
        omega
      · have hl : isLeap y = false := by
          unfold isLeap
          rw [if_pos c4, if_pos c100, if_neg c400]
        rw [if_pos c4, if_pos c100, if_neg c400, hl,
          if_neg (by simp)]
        omega
    · have c400 : ¬y % 400 = 0 := by omega
      have hl : isLeap y = true := by
        unfold isLeap
        rw [if_pos c4, if_neg c100]
      rw [if_pos c4, if_neg c100, if_neg c400, hl, if_pos rfl]
      omega
  · have c100 : ¬y % 100 = 0 := by omega
    have c400 : ¬y % 400 = 0 := by omega
    have hl : isLeap y = false := by
      unfold isLeap
      rw [if_neg c4]
    rw [if_neg c4, if_neg c100, if_neg c400, hl, if_neg (by simp)]
    omega

theorem daysBeforeMonth_12 (y : ℕ) :
    daysBeforeMonth y 12 = 334 + (if isLeap y then 1 else 0) := by
  show daysBeforeMonth y 12 = _
  simp only [daysBeforeMonth, daysInMonth]
  split <;> omega

theorem toOrdinal_nextDay {y m d : ℕ} (h : ValidDate y m d) :
    toOrdinal (nextDay (y, m, d)) = toOrdinal (y, m, d) + 1 := by
  obtain ⟨hy, hm1, hm2, hd1, hd2⟩ := h
  by_cases h1 : d < daysInMonth y m
  · rw [nextDay_eq_inc h1]
    simp only [toOrdinal]
    omega
  · by_cases h2 : m < 12
    · rw [nextDay_eq_month h1 h2]
      simp only [toOrdinal]
      rw [daysBeforeMonth_succ y hm1]
      omega
    · rw [nextDay_eq_year h1 h2]
      have hm : m = 12 := by omega
      subst hm
      have hd : d = 31 := by
        simp only [daysInMonth] at hd2 h1
        omega
      subst hd
      simp only [toOrdinal]
      rw [leapsBefore_succ hy, daysBeforeMonth_12]
      have hone : daysBeforeMonth (y + 1) 1 = 0 := rfl
      rw [hone]
      split <;> omega

theorem valid_addDays {y m d : ℕ} (h : ValidDate y m d) (n : ℕ) :
    ValidDate (addDays n (y, m, d)).1 (addDays n (y, m, d)).2.1
      (addDays n (y, m, d)).2.2 := by
  induction n generalizing y m d with
  | zero => exact h
  | succ k ih =>
    rw [addDays, Function.iterate_succ_apply]
    have h' := valid_nextDay h
    rcases hn : nextDay (y, m, d) with ⟨y', m', d'⟩
    rw [hn] at h'
    exact ih h'

theorem toOrdinal_addDays {y m d : ℕ} (h : ValidDate y m d) (n : ℕ) :
    toOrdinal (addDays n (y, m, d)) = toOrdinal (y, m, d) + n := by
  induction n generalizing y m d with
  | zero => rfl
  | succ k ih =>
    rw [addDays, Function.iterate_succ_apply]
    have h' := valid_nextDay h
    have e := toOrdinal_nextDay h
    rcases hn : nextDay (y, m, d) with ⟨y', m', d'⟩
    rw [hn] at h' e
    show toOrdinal (addDays k (y', m', d')) = _
    rw [ih h', e]
    omega

/-! ### Theorems: break detector (claims C1 and C10) -/
theorem insertLe_length {α : Type} (le : α → α → Bool) (x : α) (l : List α) :
    (insertLe le x l).length = l.length + 1 := by
  induction l with
  | nil => rfl
  | cons y ys ih =>
    rw [insertLe]
    split
    · simp
    · simp only [List.length_cons, ih]

theorem sortByLe_length {α : Type} (le : α → α → Bool) (l : List α) :
    (sortByLe le l).length = l.length := by
  induction l with
  | nil => rfl
  | cons x xs ih =>
    rw [sortByLe, insertLe_length, ih, List.length_cons]

theorem breaksScan_fst (l : List Entry) :
    (breaksScan l).1 = (acceptedPairs l).map (fun p => mkDetail p.1 p.2) := by
  induction l with
  | nil => rfl
  | cons e1 t ih =>
    cases t with
    | nil => rfl
    | cons e2 rest =>
      rw [breaksScan]
      simp only [acceptedPairs, adjPairs, List.tail_cons, List.zip_cons_cons,
        List.filter_cons]
      cases hv : validBreakPair e1 e2 with
      | true =>
        simp only [if_pos hv, hv, List.map_cons]
        simp only [acceptedPairs, adjPairs] at ih
        simp [ih]
      | false =>
        simp only [hv, if_neg, Bool.false_eq_true, not_false_iff]
        simp only [acceptedPairs, adjPairs] at ih
        simp [ih]

theorem breaksScan_snd (l : List Entry) :
    (breaksScan l).2 = ((acceptedPairs l).map (fun p => gapSec p.1 p.2)).sum := by
  induction l with
  | nil => rfl
  | cons e1 t ih =>
    cases t with
    | nil => rfl
    | cons e2 rest =>
      rw [breaksScan]
      simp only [acceptedPairs, adjPairs, List.tail_cons, List.zip_cons_cons,
        List.filter_cons]
      cases hv : validBreakPair e1 e2 with
      | true =>
        simp only [if_pos hv, hv, List.map_cons, List.sum_cons]
        simp only [acceptedPairs, adjPairs] at ih
        simp [ih]
      | false =>
        simp only [hv, if_neg, Bool.false_eq_true, not_false_iff]
        simp only [acceptedPairs, adjPairs] at ih
        simp [ih]

/-- Claim C1: per (user, local day) group sorted by start time, the break
detector records exactly one break for each adjacent pair whose gap is
within [300 s, 3600 s] with both boundary local hours in [10, 16]; gaps of
exactly 299 or 3601 seconds are excluded while 300 and 3600 are included;
and a group with fewer than two entries produces no break record. -/
theorem claim_C1 (users : List (String × String)) (uid : String) (day : ℕ)
    (g : List Entry) :
    (g.length < 2 → breaksForGroup users uid day g = none) ∧
    (2 ≤ g.length → acceptedPairs (sortByLe entryLe g) = [] →
      breaksForGroup users uid day g = none) ∧
    (acceptedPairs (sortByLe entryLe g) ≠ [] →
      ∃ r, breaksForGroup users uid day g = some r ∧
        r.break_details =
          (acceptedPairs (sortByLe entryLe g)).map (fun p => mkDetail p.1 p.2)) ∧
    (∀ e1 e2 : Entry, gapSec e1 e2 = 299 → validBreakPair e1 e2 = false) ∧
    (∀ e1 e2 : Entry, gapSec e1 e2 = 3601 → validBreakPair e1 e2 = false) ∧
    (∀ e1 e2 : Entry, gapSec e1 e2 = 300 →
      10 ≤ hourOf e1.endT → hourOf e1.endT ≤ 16 →
      10 ≤ hourOf e2.beginT → hourOf e2.beginT ≤ 16 →
      validBreakPair e1 e2 = true) ∧
    (∀ e1 e2 : Entry, gapSec e1 e2 = 3600 →
      10 ≤ hourOf e1.endT → hourOf e1.endT ≤ 16 →
      10 ≤ hourOf e2.beginT → hourOf e2.beginT ≤ 16 →
      validBreakPair e1 e2 = true) := by
  refine ⟨?_, ?_, ?_, ?_, ?_, ?_, ?_⟩
  · intro hlen
    unfold breaksForGroup
    rw [if_pos (by rw [sortByLe_length]; exact hlen)]
  · intro hlen hacc
    unfold breaksForGroup
    rw [if_neg (by rw [sortByLe_length]; omega)]
    simp only [breaksScan_fst, hacc, List.map_nil]
    simp
  · intro hacc
    unfold breaksForGroup
    rcases hs : sortByLe entryLe g with _ | ⟨e0, _ | ⟨e1', t⟩⟩
    · exact absurd (by rw [hs]; rfl) hacc
    · exact absurd (by rw [hs]; rfl) hacc
    · rw [hs] at hacc
      rw [if_neg (by simp only [List.length_cons]; omega)]
      rw [if_neg (by rw [breaksScan_fst]; simpa using hacc)]
      refine ⟨_, rfl, ?_⟩
      exact breaksScan_fst (e0 :: e1' :: t)
  · intro e1 e2 hgap
    simp only [validBreakPair, hgap, Bool.and_eq_false_iff]
    left
    decide
  · intro e1 e2 hgap
    simp only [validBreakPair, hgap, Bool.and_eq_false_iff]
    left
    decide
  · intro e1 e2 hgap h1 h2 h3 h4
    simp only [validBreakPair, hgap, Bool.and_eq_true, decide_eq_true_eq]
    exact ⟨⟨by omega, by omega⟩, h1, h2, h3, h4⟩
  · intro e1 e2 hgap h1 h2 h3 h4
    simp only [validBreakPair, hgap, Bool.and_eq_true, decide_eq_true_eq]
    exact ⟨⟨by omega, by omega⟩, h1, h2, h3, h4⟩

theorem claim_C1_witness :
    (breaksForGroup [] "7" 0 [Entry.mk 36000 39600] = none) ∧
    (∃ r, breaksForGroup [] "7" 0 [Entry.mk 40200 43200, Entry.mk 36000 39600] =
        some r ∧
      r.break_details =
        (acceptedPairs (sortByLe entryLe
          [Entry.mk 40200 43200, Entry.mk 36000 39600])).map
            (fun p => mkDetail p.1 p.2)) ∧
    (validBreakPair (Entry.mk 36000 39600) (Entry.mk 39899 43200) = false) ∧
    (validBreakPair (Entry.mk 36000 39600) (Entry.mk 43201 46800) = false) ∧
    (validBreakPair (Entry.mk 36000 39600) (Entry.mk 39900 43200) = true) ∧
    (validBreakPair (Entry.mk 36000 39600) (Entry.mk 43200 46800) = true) := by
  refine ⟨?_, ?_, ?_, ?_, ?_, ?_⟩
  · exact (claim_C1 [] "7" 0 [Entry.mk 36000 39600]).1 (by decide)
  · exact (claim_C1 [] "7" 0 [Entry.mk 40200 43200, Entry.mk 36000 39600]).2.2.1
      (by decide)
  · exact (claim_C1 [] "7" 0 []).2.2.2.1 (Entry.mk 36000 39600)
      (Entry.mk 39899 43200) (by decide)
  · exact (claim_C1 [] "7" 0 []).2.2.2.2.1 (Entry.mk 36000 39600)
      (Entry.mk 43201 46800) (by decide)
  · exact (claim_C1 [] "7" 0 []).2.2.2.2.2.1 (Entry.mk 36000 39600)
      (Entry.mk 39900 43200) (by decide) (by decide) (by decide) (by decide)
      (by decide)
  · exact (claim_C1 [] "7" 0 []).2.2.2.2.2.2 (Entry.mk 36000 39600)
      (Entry.mk 43200 46800) (by decide) (by decide) (by decide) (by decide)
      (by decide)

/-- Claim C10: every emitted break record is internally consistent:
`total_breaks` equals the length of `break_details` and is at least 1, and
the two duration totals are the rounded conversions of the sum of the
accepted gap durations. -/
theorem claim_C10 (users : List (String × String)) (uid : String) (day : ℕ)
    (g : List Entry) (r : BreakRecord)
    (h : breaksForGroup users uid day g = some r) :
    r.total_breaks = r.break_details.length ∧
    1 ≤ r.total_breaks ∧
    r.total_break_hours =
      pyRound 2
        ((((acceptedPairs (sortByLe entryLe g)).map
            (fun p => gapSec p.1 p.2)).sum : ℚ) / 3600) ∧
    r.total_break_minutes =
      pyRound 1
        ((((acceptedPairs (sortByLe entryLe g)).map
            (fun p => gapSec p.1 p.2)).sum : ℚ) / 60) := by
  unfold breaksForGroup at h
  by_cases h1 : (sortByLe entryLe g).length < 2
  · rw [if_pos h1] at h
    exact absurd h (by simp)
  · rw [if_neg h1] at h
    by_cases h2 : (breaksScan (sortByLe entryLe g)).1 = []
    · rw [if_pos h2] at h
      exact absurd h (by simp)
    · rw [if_neg h2] at h
      rcases hs : sortByLe entryLe g with _ | ⟨e0, t⟩
      · rw [hs] at h
        exact absurd h (by simp)
      · rw [hs] at h h2
        cases h
        refine ⟨rfl, ?_, ?_, ?_⟩
        · show 1 ≤ (breaksScan (e0 :: t)).1.length
          rcases hb : (breaksScan (e0 :: t)).1 with _ | ⟨x, xs⟩
          · exact absurd hb h2
          · simp
        · show pyRound 2 _ = _
          rw [breaksScan_snd]
        · show pyRound 1 _ = _
          rw [breaksScan_snd]

theorem claim_C10_witness :
    ∃ r, breaksForGroup [] "7" 0 [Entry.mk 40200 43200, Entry.mk 36000 39600] =
        some r ∧
      (r.total_breaks = r.break_details.length ∧
       1 ≤ r.total_breaks ∧
       r.total_break_hours =
         pyRound 2
           ((((acceptedPairs (sortByLe entryLe
               [Entry.mk 40200 43200, Entry.mk 36000 39600])).map
               (fun p => gapSec p.1 p.2)).sum : ℚ) / 3600) ∧
       r.total_break_minutes =
         pyRound 1
           ((((acceptedPairs (sortByLe entryLe
               [Entry.mk 40200 43200, Entry.mk 36000 39600])).map
               (fun p => gapSec p.1 p.2)).sum : ℚ) / 60)) := by
  rcases hval : breaksForGroup [] "7" 0
      [Entry.mk 40200 43200, Entry.mk 36000 39600] with _ | r
  · exact absurd hval (by decide)
  · exact ⟨r, rfl,
      claim_C10 [] "7" 0 [Entry.mk 40200 43200, Entry.mk 36000 39600] r hval⟩

theorem char_eq_of_toNat {a b : Char} (h : a.toNat = b.toNat) : a = b :=
  Char.eq_of_val_eq (UInt32.ext h)

theorem lexLtB_conn {a b : List Char} (h1 : lexLtB a b = false)
    (h2 : lexLtB b a = false) : a = b := by
  induction a generalizing b with
  | nil =>
    cases b with
    | nil => rfl
    | cons y ys => exact absurd h1 (by rw [lexLtB]; simp)
  | cons x xs ih =>
    cases b with
    | nil => exact absurd h2 (by rw [lexLtB]; simp)
    | cons y ys =>
      rw [lexLtB] at h1 h2
      by_cases hxy : x.toNat < y.toNat
      · rw [if_pos hxy] at h1
        exact absurd h1 (by simp)
      · rw [if_neg hxy] at h1
        by_cases hyx : y.toNat < x.toNat
        · rw [if_pos hyx] at h2
          exact absurd h2 (by simp)
        · rw [if_neg hyx] at h1
          rw [if_neg (by omega), if_neg (by omega)] at h2
          rw [char_eq_of_toNat (by omega : x.toNat = y.toNat), ih h1 h2]

theorem foldl_max_spec (l : List Invoice) (acc : Invoice) :
    (l.foldl
        (fun acc x => if lexLtB (dateKey acc).data (dateKey x).data then x else acc)
        acc = acc ∨
      l.foldl
        (fun acc x => if lexLtB (dateKey acc).data (dateKey x).data then x else acc)
        acc ∈ l) ∧
    lexLtB
        (dateKey (l.foldl
          (fun acc x => if lexLtB (dateKey acc).data (dateKey x).data then x else acc)
          acc)).data (dateKey acc).data = false ∧
    (∀ j ∈ l,
      lexLtB
        (dateKey (l.foldl
          (fun acc x => if lexLtB (dateKey acc).data (dateKey x).data then x else acc)
          acc)).data (dateKey j).data = false) := by
  induction l generalizing acc with
  | nil => exact ⟨Or.inl rfl, lexLtB_irrefl _, by simp⟩
  | cons x xs ih =>
    simp only [List.foldl_cons]
    by_cases hc : lexLtB (dateKey acc).data (dateKey x).data = true
    · rw [if_pos hc]
      obtain ⟨hmem, hx, hall⟩ := ih x
      have hra : lexLtB
          (dateKey (xs.foldl
            (fun acc x => if lexLtB (dateKey acc).data (dateKey x).data then x else acc)
            x)).data (dateKey acc).data = false := by
        by_contra hcon
        rw [Bool.not_eq_false] at hcon
        have := lexLtB_trans hcon hc
        rw [this] at hx
        exact absurd hx (by simp)
      refine ⟨?_, hra, ?_⟩
      · rcases hmem with he | hm
        · exact Or.inr (by rw [he]; exact List.mem_cons_self x xs)
        · exact Or.inr (List.mem_cons_of_mem x hm)
      · intro j hj
        rcases List.mem_cons.mp hj with he | hm
        · rw [he]
          exact hx
        · exact hall j hm
    · rw [if_neg hc]
      rw [Bool.not_eq_true] at hc
      obtain ⟨hmem, hacc, hall⟩ := ih acc
      refine ⟨?_, hacc, ?_⟩
      · rcases hmem with he | hm
        · exact Or.inl he
        · exact Or.inr (List.mem_cons_of_mem x hm)
      · intro j hj
        rcases List.mem_cons.mp hj with he | hm
        · rw [he]
          by_cases hxa : lexLtB (dateKey x).data (dateKey acc).data = true
          · by_contra hcon
            rw [Bool.not_eq_false] at hcon
            have := lexLtB_trans hcon hxa
            rw [this] at hacc
            exact absurd hacc (by simp)
          · rw [Bool.not_eq_true] at hxa
            have hkey := lexLtB_conn hc hxa
            rw [← hkey]
            exact hacc
        · exact hall j hm

theorem mostRecent1_spec (cands : List Invoice) (hne : cands ≠ []) :
    ∃ i, mostRecent1 cands = some i ∧ i ∈ cands ∧
      ∀ j ∈ cands, lexLtB (dateKey i).data (dateKey j).data = false := by
  cases cands with
  | nil => exact absurd rfl hne
  | cons inv rest =>
    obtain ⟨hmem, hacc, hall⟩ := foldl_max_spec rest inv
    refine ⟨_, rfl, ?_, ?_⟩
    · rcases hmem with he | hm
      · rw [he]
        exact List.mem_cons_self inv rest
      · exact List.mem_cons_of_mem inv hm
    · intro j hj
      rcases List.mem_cons.mp hj with he | hm
      · rw [he]
        exact hacc
      · exact hall j hm

theorem amountScan_first (jt : ℚ) (cands : List Invoice)
    (hex : ∃ i ∈ cands, qualInv jt i) :
    ∃ pre i post, cands = pre ++ i :: post ∧ qualInv jt i ∧
      (∀ j ∈ pre, ¬qualInv jt j) ∧ amountScan jt cands = some i := by
  induction cands with
  | nil => simp at hex
  | cons inv rest ih =>
    by_cases hq : qualInv jt inv
    · have hq' : 0 < inv.total ∧ |inv.total - jt| / jt ≤ 1/10 := hq
      exact ⟨[], inv, rest, rfl, hq, by simp, by rw [amountScan, if_pos hq']⟩
    · have hex' : ∃ i ∈ rest, qualInv jt i := by
        obtain ⟨i, hi, hqi⟩ := hex
        rcases List.mem_cons.mp hi with he | hm
        · rw [he] at hqi
          exact absurd hqi hq
        · exact ⟨i, hm, hqi⟩
      obtain ⟨pre, i, post, heq, hqi, hpre, hscan⟩ := ih hex'
      have hq' : ¬(0 < inv.total ∧ |inv.total - jt| / jt ≤ 1/10) := hq
      refine ⟨inv :: pre, i, post, by rw [heq]; rfl, hqi, ?_,
        by rw [amountScan, if_neg hq', hscan]⟩
      intro j hj
      rcases List.mem_cons.mp hj with he | hm
      · rw [he]
        exact hq
      · exact hpre j hm

/-- Claim C2: with a positive job total the matcher selects the first
invoice in input order whose total is positive and within 10% relative
tolerance ("Amount Match"); with a non-positive total and a nonempty
candidate list it selects an invoice with the greatest date key
("Most Recent"); with no candidates there is no match.  The two concrete
scenarios of the specification are included. -/
theorem claim_C2 :
    (∀ (jt : ℚ) (cands : List Invoice), 0 < jt →
      (∃ i ∈ cands, qualInv jt i) →
      ∃ pre i post, cands = pre ++ i :: post ∧ qualInv jt i ∧
        (∀ j ∈ pre, ¬qualInv jt j) ∧
        matchInvoice jt cands = (some i, "Amount Match")) ∧
    (∀ (jt : ℚ) (cands : List Invoice), ¬0 < jt → cands ≠ [] →
      ∃ i, matchInvoice jt cands = (some i, "Most Recent") ∧ i ∈ cands ∧
        ∀ j ∈ cands, lexLtB (dateKey i).data (dateKey j).data = false) ∧
    (∀ jt : ℚ, matchInvoice jt [] = (none, "None")) ∧
    (matchInvoice 100
        [Invoice.mk "Acme" 85 (some "2024-01-05"),
         Invoice.mk "Acme" 130 (some "2024-02-05"),
         Invoice.mk "Acme" 109 (some "2024-03-05")] =
      (some (Invoice.mk "Acme" 109 (some "2024-03-05")), "Amount Match")) ∧
    (matchInvoice 0
        [Invoice.mk "Acme" 50 (some "2024-01-01"),
         Invoice.mk "Acme" 60 (some "2024-03-01")] =
      (some (Invoice.mk "Acme" 60 (some "2024-03-01")), "Most Recent")) := by
  refine ⟨?_, ?_, ?_, ?_, ?_⟩
  · intro jt cands hjt hex
    obtain ⟨pre, i, post, heq, hqi, hpre, hscan⟩ := amountScan_first jt cands hex
    refine ⟨pre, i, post, heq, hqi, hpre, ?_⟩
    unfold matchInvoice
    rw [if_pos hjt, hscan]
  · intro jt cands hjt hne
    obtain ⟨i, hmr, hmem, hall⟩ := mostRecent1_spec cands hne
    refine ⟨i, ?_, hmem, hall⟩
    unfold matchInvoice
    rw [if_neg hjt, hmr]
  · intro jt
    unfold matchInvoice
    split <;> rename_i heq
    · rw [show (if 0 < jt then amountScan jt [] else none) = none by
        split <;> rfl] at heq
      exact absurd heq (by simp)
    · rfl
  · norm_num [matchInvoice, amountScan, abs_of_nonpos, abs_of_nonneg]
  · unfold matchInvoice
    rw [if_neg (by norm_num : ¬(0:ℚ) < 0)]
    simp only [mostRecent1, List.foldl_cons, List.foldl_nil]
    rw [if_pos (by decide)]

theorem claim_C2_witness :
    (∃ pre i post,
      [Invoice.mk "Acme" 109 (some "2024-03-05")] = pre ++ i :: post ∧
        qualInv 100 i ∧ (∀ j ∈ pre, ¬qualInv 100 j) ∧
        matchInvoice 100 [Invoice.mk "Acme" 109 (some "2024-03-05")] =
          (some i, "Amount Match")) ∧
    (∃ i, matchInvoice 0 [Invoice.mk "Acme" 50 (some "2024-01-01")] =
        (some i, "Most Recent") ∧
      i ∈ [Invoice.mk "Acme" 50 (some "2024-01-01")] ∧
      ∀ j ∈ [Invoice.mk "Acme" 50 (some "2024-01-01")],
        lexLtB (dateKey i).data (dateKey j).data = false) ∧
    (matchInvoice 37 [] = (none, "None")) := by
  refine ⟨?_, ?_, ?_⟩
  · exact claim_C2.1 100 [Invoice.mk "Acme" 109 (some "2024-03-05")]
      (by norm_num)
      ⟨Invoice.mk "Acme" 109 (some "2024-03-05"), by simp,
        by norm_num [qualInv, abs_of_nonneg]⟩
  · exact claim_C2.2.1 0 [Invoice.mk "Acme" 50 (some "2024-01-01")]
      (by norm_num) (by simp)
  · exact claim_C2.2.2.1 37

/-! ### Theorems: expected-customer sheets (claim C3) -/
/-- Counterexample to claim C3 as stated: "General Admin" belongs to the
fixed expected-customer roster, yet the report workbook's per-customer sheet
loop never creates a sheet for it (the loop iterates
`set(EXPECTED_CUSTOMERS) - set(["General Admin"])`). -/
theorem claim_C3_cex :
    "General Admin" ∈ EXPECTED_CUSTOMERS ∧
    ((create_customer_reports []).map Prod.fst).contains "General Admin" = false := by
  constructor
  · decide
  · decide

/-- Claim C3 (amended): every roster customer other than "General Admin"
receives a sheet; when the customer has no grouped data the sheet is exactly
the fixed header row plus one zero-valued placeholder row. -/
theorem claim_C3 (rows : List MRow) (c : String) (hc : c ∈ EXPECTED_CUSTOMERS)
    (hga : c ≠ "General Admin") :
    (strTake31 c,
      if c ∈ customersWithData (dfCustomers rows) then
        custHeaderRow :: custDataRows (dfCustomers rows) c
      else [custHeaderRow, placeholderRow]) ∈ create_customer_reports rows ∧
    (c ∉ customersWithData (dfCustomers rows) →
      (strTake31 c, [custHeaderRow, placeholderRow]) ∈ create_customer_reports rows) := by
  have hmem : c ∈ rosterBase := by
    rw [rosterBase, List.mem_filter]
    exact ⟨hc, by simp [hga]⟩
  constructor
  · exact List.mem_map_of_mem _ hmem
  · intro hnd
    have := List.mem_map_of_mem
      (fun customer =>
        (strTake31 customer,
          if customer ∈ customersWithData (dfCustomers rows) then
            custHeaderRow :: custDataRows (dfCustomers rows) customer
          else [custHeaderRow, placeholderRow])) hmem
    simp only at this
    rw [if_neg hnd] at this
    exact this

theorem claim_C3_witness :
    ((strTake31 "DUKE",
      if "DUKE" ∈ customersWithData (dfCustomers []) then
        custHeaderRow :: custDataRows (dfCustomers []) "DUKE"
      else [custHeaderRow, placeholderRow]) ∈ create_customer_reports []) ∧
    ((strTake31 "DUKE", [custHeaderRow, placeholderRow]) ∈
      create_customer_reports []) := by
  refine ⟨(claim_C3 [] "DUKE" (by decide) (by decide)).1, ?_⟩
  exact (claim_C3 [] "DUKE" (by decide) (by decide)).2 (by decide)

/-! ### Theorems: identifier resolution and missing-key aggregation
(claim C5) -/
/-- Counterexample to claim C5 as stated: a timesheet row whose project id
has no entry in the projects table resolves to a missing customer (no
error), but the downstream (customer, user) aggregation silently drops the
row — the grouped output is empty, with no "unknown" bucket. -/
theorem claim_C5_cex :
    (mapRows [("5", "Dev")] [("1", "Proj")] [("1", "DUKE")] [("1", "Alice")]
        [RawRow.mk "1" "99" "5" 0 18000]).length = 1 ∧
    (mapRows [("5", "Dev")] [("1", "Proj")] [("1", "DUKE")] [("1", "Alice")]
        [RawRow.mk "1" "99" "5" 0 18000]).map (fun r => r.customer) = [none] ∧
    (mapRows [("5", "Dev")] [("1", "Proj")] [("1", "DUKE")] [("1", "Alice")]
        [RawRow.mk "1" "99" "5" 0 18000]).map (fun r => r.user) = [some "Alice"] ∧
    groupedTotal (mapRows [("5", "Dev")] [("1", "Proj")] [("1", "DUKE")]
        [("1", "Alice")] [RawRow.mk "1" "99" "5" 0 18000]) = [] :=
  ⟨rfl, rfl, rfl, rfl⟩

theorem breaksForGroup_user {users : List (String × String)} {uid : String}
    {day : ℕ} {g : List Entry} {r : BreakRecord}
    (h : breaksForGroup users uid day g = some r) : r.user = aliasOf users uid := by
  unfold breaksForGroup at h
  by_cases h1 : (sortByLe entryLe g).length < 2
  · rw [if_pos h1] at h
    exact absurd h (by simp)
  · rw [if_neg h1] at h
    by_cases h2 : (breaksScan (sortByLe entryLe g)).1 = []
    · rw [if_pos h2] at h
      exact absurd h (by simp)
    · rw [if_neg h2] at h
      rcases hs : sortByLe entryLe g with _ | ⟨e0, t⟩
      · rw [hs] at h
        exact absurd h (by simp)
      · rw [hs] at h
        cases h
        rfl

theorem filterMap_keyCU_filter (rows : List MRow) :
    rows.filterMap keyCU =
      (rows.filter (fun r => (keyCU r).isSome)).filterMap keyCU := by
  induction rows with
  | nil => rfl
  | cons r rest ih =>
    cases hk : keyCU r <;>
      simp [List.filterMap_cons, List.filter_cons, hk, ih]

theorem filter_keyCU_filter (rows : List MRow) (k : String × String) :
    rows.filter (fun r => keyCU r = some k) =
      (rows.filter (fun r => (keyCU r).isSome)).filter
        (fun r => keyCU r = some k) := by
  induction rows with
  | nil => rfl
  | cons r rest ih =>
    cases hk : keyCU r with
    | none => simp [List.filter_cons, hk, ih]
    | some k' =>
      by_cases he : k' = k
      · subst he
        simp [List.filter_cons, hk, ih]
      · simp [List.filter_cons, hk, ih, he]

/-- Claim C5 (amended): id resolution is total — every row survives the
mapping step, with unresolvable ids becoming missing values — but the
(customer, user) aggregation silently excludes rows whose group key is
missing (there is no "unknown" bucket there); only the break detector
buckets an unknown user id under the distinct label `User_<id>`. -/
theorem claim_C5 :
    (∀ (activities projects parentTitles users : List (String × String))
        (raws : List RawRow),
      (mapRows activities projects parentTitles users raws).length = raws.length) ∧
    (∀ rows : List MRow,
      groupedTotal rows = groupedTotal (rows.filter (fun r => (keyCU r).isSome))) ∧
    (∀ (users : List (String × String)) (uid : String) (day : ℕ)
        (g : List Entry) (r : BreakRecord),
      breaksForGroup users uid day g = some r → users.lookup uid = none →
        r.user = "User_" ++ uid) := by
  refine ⟨?_, ?_, ?_⟩
  · intro activities projects parentTitles users raws
    unfold mapRows
    exact List.length_map _ _
  · intro rows
    unfold groupedTotal
    rw [← filterMap_keyCU_filter]
    apply List.map_congr_left
    intro k hk
    rw [← filter_keyCU_filter]
  · intro users uid day g r h hl
    rw [breaksForGroup_user h]
    unfold aliasOf
    rw [hl]
    rfl

theorem claim_C5_witness :
    ∃ r, breaksForGroup [] "7" 0 [Entry.mk 40200 43200, Entry.mk 36000 39600] =
        some r ∧ r.user = "User_" ++ "7" := by
  rcases hval : breaksForGroup [] "7" 0
      [Entry.mk 40200 43200, Entry.mk 36000 39600] with _ | r
  · exact absurd hval (by decide)
  · exact ⟨r, rfl,
      claim_C5.2.2 [] "7" 0 [Entry.mk 40200 43200, Entry.mk 36000 39600] r hval rfl⟩

/-! ### Theorems: run-to-run determinism (claim C8) -/
/-- Counterexample to claim C8 as stated: two runs over identical input rows
whose expected-customer set iterates in different orders (Python string-hash
randomization varies the order across processes) produce workbooks whose
per-customer sheet sequences differ — a byte-level difference that is not a
wall-clock filename or timestamp field. -/
theorem claim_C8_cex :
    rosterBase.reverse.Perm rosterBase ∧
    createCustomerSheetsOrd rosterBase.reverse [] ≠
      createCustomerSheetsOrd rosterBase [] := by
  constructor
  · exact List.reverse_perm rosterBase
  · decide

/-- Claim C8 (amended): the aggregated values are a deterministic function
of the input — for any two iteration orders of the expected-customer set,
the two runs produce the same multiset of per-customer sheets (each named
sheet has identical contents), though the sheet order may differ; every
roster customer's sheet content is determined by the input rows alone. -/
theorem claim_C8 :
    (∀ (ord1 ord2 : List String) (rows : List MRow), ord1.Perm ord2 →
      (createCustomerSheetsOrd ord1 rows).Perm (createCustomerSheetsOrd ord2 rows)) ∧
    (∀ (ord : List String) (rows : List MRow) (c : String), c ∈ ord →
      (strTake31 c,
        if c ∈ customersWithData (dfCustomers rows) then
          custHeaderRow :: custDataRows (dfCustomers rows) c
        else [custHeaderRow, placeholderRow]) ∈ createCustomerSheetsOrd ord rows) := by
  constructor
  · intro ord1 ord2 rows hperm
    exact hperm.map _
  · intro ord rows c hc
    exact List.mem_map_of_mem _ hc

theorem claim_C8_witness :
    (createCustomerSheetsOrd rosterBase.reverse []).Perm
      (createCustomerSheetsOrd rosterBase []) ∧
    (strTake31 "TDS",
      if "TDS" ∈ customersWithData (dfCustomers []) then
        custHeaderRow :: custDataRows (dfCustomers []) "TDS"
      else [custHeaderRow, placeholderRow]) ∈
        createCustomerSheetsOrd rosterBase [] := by
  constructor
  · exact claim_C8.1 rosterBase.reverse rosterBase [] (List.reverse_perm rosterBase)
  · exact claim_C8.2 rosterBase [] "TDS" (by decide)

/-! ### Theorems: zero primary records (claim C4) -/
/-- Counterexample to claim C4 as stated: in the Kimai pipeline, zero
timesheet records with all reference endpoints succeeding leaves the
"Timesheets" dataframe absent, `process_timesheet_mappings` returns `None`,
and `main` fails (exit 1) without writing any workbook. -/
theorem claim_C4_cex :
    dataframesOf [] [1] [1] [1] ≠ [] ∧
    kimaiRunOutput [] [1] [1] [1] = none := by
  constructor
  · decide
  · decide

/-- Claim C4 (amended): with zero primary records the two pipelines diverge.
The Kimai run always fails (no output file) because the "Timesheets" sheet
is missing, whatever the reference endpoints returned; the Service Fusion
run completes and writes a workbook whose `PowerBI_Summary` sheet holds only
the header row. -/
theorem claim_C4 :
    (∀ acts projs users : List ℕ, kimaiRunOutput [] acts projs users = none) ∧
    (∀ now : String,
      save_to_excel now [] [] [] [] =
        [("PowerBI_Summary", [sfHeaderRow]),
         ("Extraction_Summary",
           [[Cell.str "Endpoint", Cell.str "Record Count", Cell.str "Extracted At"],
            [Cell.str "customers", Cell.num 0, Cell.str now],
            [Cell.str "jobs", Cell.num 0, Cell.str now],
            [Cell.str "estimates", Cell.num 0, Cell.str now],
            [Cell.str "invoices", Cell.num 0, Cell.str now]])]) := by
  constructor
  · intro acts projs users
    unfold kimaiRunOutput dataframesOf hasAllSheets
    by_cases ha : acts = [] <;> by_cases hp : projs = [] <;>
      by_cases hu : users = [] <;> simp [ha, hp, hu]
  · intro now
    unfold save_to_excel create_powerbi_summary
    norm_num

/-! ### Theorems: pagination safety caps and termination (claim C6) -/
theorem sfIter_inr_page {yearS : List Char} {ytd : Bool} {page : ℕ}
    {acc acc' : List SfRec} {resp : SfResp}
    (h : sfIter yearS ytd page acc resp = Sum.inr acc') : page ≤ 500 := by
  unfold sfIter at h
  split_ifs at h with h1 h2 h3 h4 h5 <;>
    first
      | exact Sum.noConfusion h
      | omega

theorem sfIter_inl_of_big {yearS : List Char} {ytd : Bool} {page : ℕ}
    {acc : List SfRec} (resp : SfResp) (hbig : 50000 ≤ acc.length) :
    ∃ res, sfIter yearS ytd page acc resp = Sum.inl res := by
  unfold sfIter
  split_ifs with h1 h2 h3 h4 h5
  · exact ⟨acc, rfl⟩
  · exact ⟨_, rfl⟩
  · exact ⟨_, rfl⟩
  · exact ⟨_, rfl⟩
  · exact ⟨_, rfl⟩
  · exfalso
    apply h4
    rw [List.length_append]
    omega

/-- Counterexample to claim C6 as stated: against an API that returns a
nonempty page forever, the Kimai pagination loop is still running after 502
page requests — there is no 50,000-record or 500-page cap in the Kimai
extractor. -/
theorem claim_C6_cex :
    kimaiGo (fun _ => KResp.mk 200 [0]) 502 1 [] = none := by
  have hall : ∀ (fuel page : ℕ) (dfList : List (List ℕ)),
      kimaiGo (fun _ => KResp.mk 200 [0]) fuel page dfList = none := by
    intro fuel
    induction fuel with
    | zero => intro page dfList; rfl
    | succ n ih =>
      intro page dfList
      exact ih (page + 1) (dfList ++ [[0]])
  exact hall 502 1 []

/-- Claim C6 (amended): the 50,000-record and 500-page caps exist only in
the Service Fusion extractor, where any run from the real entry state stops
within the fuel bound 502 (cap-guaranteed termination) and an accumulator
already at 50,000 records causes at most the in-flight page request (plus
the page-1 retry) before stopping; the Kimai extractor has no caps, and on
an API that always returns a nonempty page its loop never stops, for any
amount of fuel. -/
theorem claim_C6 :
    (∀ (api : ℕ → Bool → SfResp) (yearS : List Char) (ytd : Bool)
        (fuel page : ℕ) (acc : List SfRec) (reqs : List (ℕ × Bool)),
      501 - page < fuel → sfGo api yearS ytd fuel page acc reqs ≠ none) ∧
    (∀ (api : ℕ → Bool → SfResp) (yearS : List Char) (ytd : Bool)
        (fuel page : ℕ) (acc : List SfRec) (reqs : List (ℕ × Bool))
        (res : List SfRec × List (ℕ × Bool)),
      50000 ≤ acc.length →
      sfGo api yearS ytd (fuel + 1) page acc reqs = some res →
      res.2.length ≤ reqs.length + 2) ∧
    (∀ (fuel page : ℕ) (dfList : List (List ℕ)),
      kimaiGo (fun _ => KResp.mk 200 [0]) fuel page dfList = none) := by
  refine ⟨?_, ?_, ?_⟩
  · intro api yearS ytd fuel
    induction fuel with
    | zero =>
      intro page acc reqs hf
      omega
    | succ n ih =>
      intro page acc reqs hf
      rw [sfGo]
      split
      · rcases hi : sfIter yearS ytd page acc (api page true) with res | acc'
        · simp [hi]
        · simp only [hi]
          exact ih (page + 1) acc' (reqs ++ [(page, true)])
            (by have := sfIter_inr_page hi; omega)
      · split
        · split
          · rcases hi : sfIter yearS ytd page acc (api 1 false) with res | acc'
            · simp [hi]
            · simp only [hi]
              exact ih (page + 1) acc' (reqs ++ [(page, true), (page, false)])
                (by have := sfIter_inr_page hi; omega)
          · simp
        · simp
  · intro api yearS ytd fuel page acc reqs res hbig h
    rw [sfGo] at h
    split at h
    · obtain ⟨r0, hr0⟩ := sfIter_inl_of_big (api page true) hbig
      rw [hr0] at h
      cases h
      simp only [List.length_append, List.length_cons, List.length_nil]
      omega
    · split at h
      · split at h
        · obtain ⟨r0, hr0⟩ := sfIter_inl_of_big (api 1 false) hbig
          rw [hr0] at h
          cases h
          simp only [List.length_append, List.length_cons, List.length_nil]
          omega
        · cases h
          simp only [List.length_append, List.length_cons, List.length_nil]
          omega
      · cases h
        simp only [List.length_append, List.length_cons, List.length_nil]
        omega
  · intro fuel
    induction fuel with
    | zero => intro page dfList; rfl
    | succ n ih =>
      intro page dfList
      exact ih (page + 1) (dfList ++ [[0]])

theorem claim_C6_witness :
    (sfGo (fun _ _ => SfResp.mk 404 [] none none) ['2'] true 502 1 [] [] ≠ none) ∧
    (((5, true) :: ([] : List (ℕ × Bool))).length ≤
      ([] : List (ℕ × Bool)).length + 2) := by
  constructor
  · exact claim_C6.1 (fun _ _ => SfResp.mk 404 [] none none) ['2'] true 502 1 [] []
      (by omega)
  · exact claim_C6.2.1 (fun _ _ => SfResp.mk 200 [] none none) ['2'] true 7 5
      (List.replicate 50000 (SfRec.mk none none)) []
      (List.replicate 50000 (SfRec.mk none none), [(5, true)])
      (le_of_eq (List.length_replicate 50000 (SfRec.mk none none)).symm) (by rfl)

theorem sfIter_inr_items {yearS : List Char} {ytd : Bool} {page : ℕ}
    {acc acc' : List SfRec} {resp : SfResp}
    (h : sfIter yearS ytd page acc resp = Sum.inr acc') : resp.items ≠ [] := by
  unfold sfIter at h
  split_ifs at h with h1 h2 h3 h4 h5 <;>
    first
      | exact Sum.noConfusion h
      | exact h1

theorem sfGo_good (api : ℕ → Bool → SfResp) (yearS : List Char) (ytd : Bool) :
    ∀ (fuel page : ℕ) (acc : List SfRec) (reqs : List (ℕ × Bool))
      (res : List SfRec × List (ℕ × Bool)),
      sfGo api yearS ytd fuel page acc reqs = some res →
      (∀ q, 1 ≤ q → (q + 1, true) ∈ reqs → goodPage api q) →
      (2 ≤ page → goodPage api (page - 1)) →
      ∀ q, 1 ≤ q → (q + 1, true) ∈ res.2 → goodPage api q := by
  intro fuel
  induction fuel with
  | zero =>
    intro page acc reqs res h _ _
    exact absurd h (by simp [sfGo])
  | succ n ih =>
    intro page acc reqs res h hreqs hprev q hq hmem
    rw [sfGo] at h
    split at h
    · rename_i hs200
      split at h
      · rename_i res0 hi
        cases h
        rcases List.mem_append.mp hmem with hin | hin
        · exact hreqs q hq hin
        · simp only [List.mem_singleton, Prod.mk.injEq] at hin
          have hp2 : 2 ≤ page := by omega
          have := hprev hp2
          rwa [show page - 1 = q by omega] at this
      · rename_i acc' hi
        refine ih (page + 1) acc' (reqs ++ [(page, true)]) res h ?_ ?_ q hq hmem
        · intro q' hq' hin
          rcases List.mem_append.mp hin with hin2 | hin2
          · exact hreqs q' hq' hin2
          · simp only [List.mem_singleton, Prod.mk.injEq] at hin2
            have hp2 : 2 ≤ page := by omega
            have := hprev hp2
            rwa [show page - 1 = q' by omega] at this
        · intro _
          rw [show page + 1 - 1 = page by omega]
          refine ⟨api page true, ?_, sfIter_inr_items hi⟩
          unfold effResp
          rw [if_pos hs200]
    · rename_i hs200
      split at h
      · rename_i hpage1
        split at h
        · rename_i hs2
          split at h
          · rename_i res0 hi
            cases h
            rcases List.mem_append.mp hmem with hin | hin
            · exact hreqs q hq hin
            · subst hpage1
              simp only [List.mem_cons, List.mem_singleton, Prod.mk.injEq,
                List.not_mem_nil, or_false] at hin
              rcases hin with ⟨he, _⟩ | ⟨he, hf⟩
              · omega
              · exact absurd hf (by simp)
          · rename_i acc' hi
            subst hpage1
            refine ih 2 acc' (reqs ++ [(1, true), (1, false)]) res h ?_ ?_ q hq hmem
            · intro q' hq' hin
              rcases List.mem_append.mp hin with hin2 | hin2
              · exact hreqs q' hq' hin2
              · simp only [List.mem_cons, List.mem_singleton, Prod.mk.injEq,
                  List.not_mem_nil, or_false] at hin2
                rcases hin2 with ⟨he, _⟩ | ⟨he, hf⟩
                · omega
                · exact absurd hf (by simp)
            · intro _
              refine ⟨api 1 false, ?_, sfIter_inr_items hi⟩
              unfold effResp
              rw [if_neg hs200, if_pos ⟨rfl, hs2⟩]
        · cases h
          rcases List.mem_append.mp hmem with hin | hin
          · exact hreqs q hq hin
          · subst hpage1
            simp only [List.mem_cons, List.mem_singleton, Prod.mk.injEq,
              List.not_mem_nil, or_false] at hin
            rcases hin with ⟨he, _⟩ | ⟨he, hf⟩
            · omega
            · exact absurd hf (by simp)
      · cases h
        rcases List.mem_append.mp hmem with hin | hin
        · exact hreqs q hq hin
        · simp only [List.mem_singleton, Prod.mk.injEq] at hin
          have hp2 : 2 ≤ page := by omega
          have := hprev hp2
          rwa [show page - 1 = q by omega] at this

/-- Counterexample to claim C7 as stated: on the very first non-200 response
(page 1, sorted) the Service Fusion extractor does not stop issuing
requests — it retries page 1 without the sort parameter, so the request log
holds two entries. -/
theorem claim_C7_cex :
    ((fun (p : ℕ) (sorted : Bool) =>
        if p = 1 ∧ sorted = true then SfResp.mk 404 [] none none
        else SfResp.mk 200 [] none none) 1 true).status ≠ 200 ∧
    extract_with_forced_sort
      (fun (p : ℕ) (sorted : Bool) =>
        if p = 1 ∧ sorted = true then SfResp.mk 404 [] none none
        else SfResp.mk 200 [] none none) ['2', '0', '2', '5'] true =
      some ([], [(1, true), (1, false)]) := by
  constructor
  · decide
  · rfl

/-- Claim C7 (amended): both extractors request page N+1 only after page N's
effective response was a 200 with a nonempty record list; on a non-200 the
Kimai extractor (any page) and the Service Fusion extractor (pages above 1)
stop and return the records accumulated so far as a partial success; the
Service Fusion extractor alone, on page 1, first retries once without the
sort parameter and stops only if the retry also fails. -/
theorem claim_C7 :
    (∀ (api : ℕ → Bool → SfResp) (yearS : List Char) (ytd : Bool)
        (res : List SfRec × List (ℕ × Bool)),
      extract_with_forced_sort api yearS ytd = some res →
      ∀ q, 1 ≤ q → (q + 1, true) ∈ res.2 → goodPage api q) ∧
    (∀ (api : ℕ → KResp) (fuel page : ℕ) (dfList : List (List ℕ)),
      (api page).status ≠ 200 → kimaiGo api (fuel + 1) page dfList = some dfList) ∧
    (∀ (api : ℕ → KResp) (fuel page : ℕ) (dfList : List (List ℕ)),
      (api page).status = 200 → (api page).data = [] →
      kimaiGo api (fuel + 1) page dfList = some dfList) ∧
    (∀ (api : ℕ → KResp) (fuel page : ℕ) (dfList : List (List ℕ)),
      (api page).status = 200 → (api page).data ≠ [] →
      kimaiGo api (fuel + 1) page dfList =
        kimaiGo api fuel (page + 1) (dfList ++ [(api page).data])) ∧
    (∀ (api : ℕ → Bool → SfResp) (yearS : List Char) (ytd : Bool)
        (fuel page : ℕ) (acc : List SfRec) (reqs : List (ℕ × Bool)),
      1 < page → (api page true).status ≠ 200 →
      sfGo api yearS ytd (fuel + 1) page acc reqs =
        some (acc, reqs ++ [(page, true)])) ∧
    (∀ (api : ℕ → Bool → SfResp) (yearS : List Char) (ytd : Bool)
        (fuel : ℕ) (acc : List SfRec) (reqs : List (ℕ × Bool)),
      (api 1 true).status ≠ 200 → (api 1 false).status ≠ 200 →
      sfGo api yearS ytd (fuel + 1) 1 acc reqs =
        some (acc, reqs ++ [(1, true), (1, false)])) := by
  refine ⟨?_, ?_, ?_, ?_, ?_, ?_⟩
  · intro api yearS ytd res h
    refine sfGo_good api yearS ytd 502 1 [] [] res h ?_ ?_
    · intro q' _ hin
      simp at hin
    · intro h2
      omega
  · intro api fuel page dfList h
    rw [kimaiGo, if_neg h]
  · intro api fuel page dfList h200 hdata
    rw [kimaiGo, if_pos h200, if_neg (by simp [hdata])]
  · intro api fuel page dfList h200 hdata
    rw [kimaiGo, if_pos h200, if_pos hdata]
  · intro api yearS ytd fuel page acc reqs hpage hs
    rw [sfGo, if_neg hs, if_neg (by omega : ¬page = 1)]
  · intro api yearS ytd fuel acc reqs hs1 hs2
    rw [sfGo, if_neg hs1, if_pos rfl, if_neg hs2]

theorem claim_C7_witness :
    goodPage
      (fun (p : ℕ) (_ : Bool) =>
        if p = 1 then SfResp.mk 200 [SfRec.mk (some "j2025") none] none none
        else SfResp.mk 200 [] none none) 1 ∧
    kimaiGo (fun _ => KResp.mk 500 [7]) 4 2 [[1]] = some [[1]] ∧
    sfGo (fun _ _ => SfResp.mk 404 [] none none) ['2'] false 3 2 [] [] =
      some ([], [(2, true)]) := by
  refine ⟨?_, ?_, ?_⟩
  · exact claim_C7.1
      (fun (p : ℕ) (_ : Bool) =>
        if p = 1 then SfResp.mk 200 [SfRec.mk (some "j2025") none] none none
        else SfResp.mk 200 [] none none) ['2', '0', '2', '5'] false
      ([SfRec.mk (some "j2025") none], [(1, true), (2, true)]) (by rfl) 1
      (le_refl 1) (by simp)
  · exact claim_C7.2.1 (fun _ => KResp.mk 500 [7]) 3 2 [[1]] (by decide)
  · exact claim_C7.2.2.2.2.1 (fun _ _ => SfResp.mk 404 [] none none) ['2'] false 2 2
      [] [] (by omega) (by decide)

/-! ### Theorems: due-date computation (claim C9) -/
theorem not_mem_padC {c : Char} (hc : isDigitC c = false) (w n : ℕ) :
    c ∉ padC w n := by
  intro hmem
  rw [mem_padC_digit hmem] at hc
  exact absurd hc (by simp)

theorem mem_fmtDateC {c : Char} {y m d : ℕ} (h : c ∈ fmtDateC y m d) :
    isDigitC c = true ∨ c = '-' := by
  unfold fmtDateC at h
  rcases List.mem_append.mp h with h1 | h1
  · exact Or.inl (mem_padC_digit h1)
  · rcases List.mem_cons.mp h1 with h2 | h2
    · exact Or.inr h2
    · rcases List.mem_append.mp h2 with h3 | h3
      · exact Or.inl (mem_padC_digit h3)
      · rcases List.mem_cons.mp h3 with h4 | h4
        · exact Or.inr h4
        · exact Or.inl (mem_padC_digit h4)

theorem mem_fmtTimeC {c : Char} {h mi s : ℕ} (hm : c ∈ fmtTimeC h mi s) :
    isDigitC c = true ∨ c = ':' := by
  unfold fmtTimeC at hm
  rcases List.mem_append.mp hm with h1 | h1
  · exact Or.inl (mem_padC_digit h1)
  · rcases List.mem_cons.mp h1 with h2 | h2
    · exact Or.inr h2
    · rcases List.mem_append.mp h2 with h3 | h3
      · exact Or.inl (mem_padC_digit h3)
      · rcases List.mem_cons.mp h3 with h4 | h4
        · exact Or.inr h4
        · exact Or.inl (mem_padC_digit h4)

theorem fmtDateC_length {y m d : ℕ} (hy : y < 10000) (hm : m < 100)
    (hd : d < 100) : (fmtDateC y m d).length = 10 := by
  unfold fmtDateC
  rw [List.length_append, List.length_cons, List.length_append, List.length_cons]
  rw [padC_length (by omega) (by norm_num; omega),
    padC_length (by omega) (by norm_num; omega),
    padC_length (by omega) (by norm_num; omega)]

theorem fmtTimeC_length {h mi s : ℕ} (hh : h < 100) (hmi : mi < 100)
    (hs : s < 100) : (fmtTimeC h mi s).length = 8 := by
  unfold fmtTimeC
  rw [List.length_append, List.length_cons, List.length_append, List.length_cons]
  rw [padC_length (by omega) (by norm_num; omega),
    padC_length (by omega) (by norm_num; omega),
    padC_length (by omega) (by norm_num; omega)]

theorem splitOnC_fmtDateC (y m d : ℕ) :
    splitOnC '-' (fmtDateC y m d) = [padC 4 y, padC 2 m, padC 2 d] := by
  unfold fmtDateC
  rw [splitOnC_append (not_mem_padC (by decide) 4 y),
    splitOnC_append (not_mem_padC (by decide) 2 m),
    splitOnC_not_mem (not_mem_padC (by decide) 2 d)]

theorem splitOnC_fmtTimeC (h mi s : ℕ) :
    splitOnC ':' (fmtTimeC h mi s) = [padC 2 h, padC 2 mi, padC 2 s] := by
  unfold fmtTimeC
  rw [splitOnC_append (not_mem_padC (by decide) 2 h),
    splitOnC_append (not_mem_padC (by decide) 2 mi),
    splitOnC_not_mem (not_mem_padC (by decide) 2 s)]

theorem parseDateCore_fmt (strict : Bool) {y m d : ℕ} (hv : ValidDate y m d)
    (hy : y ≤ 9999) : parseDateCore strict (fmtDateC y m d) = some (y, m, d) := by
  obtain ⟨hy1, hm1, hm2, hd1, hd2⟩ := hv
  have hd31 : d ≤ 31 := le_trans hd2 daysInMonth_le
  unfold parseDateCore
  rw [splitOnC_fmtDateC]
  dsimp only
  have hys : (padC 4 y).length = 4 := padC_length (by omega) (by norm_num; omega)
  have hms : (padC 2 m).length = 2 := padC_length (by omega) (by norm_num; omega)
  have hds : (padC 2 d).length = 2 := padC_length (by omega) (by norm_num; omega)
  rw [if_pos ?cond]
  case cond =>
    refine ⟨hys, ?_, ?_⟩ <;> cases strict <;> simp [hms, hds]
  rw [parseNatC_padC, parseNatC_padC, parseNatC_padC]
  dsimp only
  rw [if_pos ⟨hy1, hm1, hm2, hd1, hd2⟩]

theorem parseTimeC_fmt {h mi s : ℕ} (hh : h ≤ 23) (hmi : mi ≤ 59)
    (hs : s ≤ 59) : parseTimeC (fmtTimeC h mi s) = some (h, mi, s) := by
  have hlen : (fmtTimeC h mi s).length = 8 :=
    fmtTimeC_length (by omega) (by omega) (by omega)
  unfold parseTimeC
  rw [List.take_of_length_le (le_of_eq hlen), List.drop_eq_nil_of_le (le_of_eq hlen)]
  rw [splitOnC_fmtTimeC]
  dsimp only
  have hh2 : (padC 2 h).length = 2 := padC_length (by omega) (by norm_num; omega)
  have hm2 : (padC 2 mi).length = 2 := padC_length (by omega) (by norm_num; omega)
  have hs2 : (padC 2 s).length = 2 := padC_length (by omega) (by norm_num; omega)
  rw [if_pos ⟨hh2, hm2, hs2⟩]
  rw [parseNatC_padC, parseNatC_padC, parseNatC_padC]
  dsimp only
  rw [if_pos ⟨hh, hmi, hs, rfl⟩]

theorem parseIsoC_fmt {y m d h mi s : ℕ} (hv : ValidDate y m d)
    (hy : y ≤ 9999) (hh : h ≤ 23) (hmi : mi ≤ 59) (hs : s ≤ 59) :
    parseIsoC (fmtDateC y m d ++ 'T' :: fmtTimeC h mi s) =
      some ((y, m, d), (h, mi, s)) := by
  have hm100 : m < 100 := by
    obtain ⟨_, _, hm2, _, _⟩ := hv
    omega
  have hd100 : d < 100 := by
    obtain ⟨_, _, _, _, hd2⟩ := hv
    have := daysInMonth_le (y := y) (m := m)
    omega
  have hlen : (fmtDateC y m d).length = 10 := fmtDateC_length (by omega) hm100 hd100
  unfold parseIsoC
  rw [show (10 : ℕ) = (fmtDateC y m d).length from hlen.symm, List.take_left,
    List.drop_left]
  rw [parseDateCore_fmt true hv hy]
  dsimp only
  rw [parseTimeC_fmt hh hmi hs]

theorem trimChars_fmtDateC (y m d : ℕ) : trimChars (fmtDateC y m d) = fmtDateC y m d := by
  apply trimChars_eq_self
  intro c hc
  rcases mem_fmtDateC hc with hd | hd
  · exact isDigitC_not_spc hd
  · rw [hd]
    rfl

theorem fmtDateC_not_T (y m d : ℕ) : 'T' ∉ fmtDateC y m d := by
  intro hmem
  rcases mem_fmtDateC hmem with hd | hd
  · exact absurd hd (by decide)
  · exact absurd hd (by decide)

/-- Counterexample to claim C9 as stated: the date string "9999-12-31"
parses, but adding 15 days overflows the `datetime` year range, the
exception is caught, and the field is `None` instead of date-plus-15-days. -/
theorem claim_C9_cex :
    parseDate10 "9999-12-31".data = some (9999, 12, 31) ∧
    calculate_due_date (some "9999-12-31") = none := by
  constructor
  · decide
  · decide

/-- Claim C9 (amended): a missing invoice (or missing/unparseable date)
yields `None`; a parseable plain date yields the date plus exactly 15 days
formatted `%Y-%m-%d`; a parseable `T`-separated datetime yields the shifted
date with the original clock time and a `+00:00` suffix — in both cases
provided the shifted date does not pass year 9999, in which case the
`datetime` overflow is caught and the field is `None`.  "Exactly 15 days"
is certified by the linear day count `toOrdinal`. -/
theorem claim_C9 :
    (calculate_due_date none = none) ∧
    (calculate_due_date (some "") = none) ∧
    (calculate_due_date (some "not a date") = none) ∧
    (∀ y m d : ℕ, ValidDate y m d → y ≤ 9999 →
      (addDays 15 (y, m, d)).1 ≤ 9999 →
      calculate_due_date (some (String.mk (fmtDateC y m d))) =
        some (String.mk (fmtDateC (addDays 15 (y, m, d)).1
          (addDays 15 (y, m, d)).2.1 (addDays 15 (y, m, d)).2.2))) ∧
    (∀ y m d h mi s : ℕ, ValidDate y m d → y ≤ 9999 → h ≤ 23 → mi ≤ 59 →
      s ≤ 59 → (addDays 15 (y, m, d)).1 ≤ 9999 →
      calculate_due_date
          (some (String.mk (fmtDateC y m d ++ 'T' :: fmtTimeC h mi s))) =
        some (String.mk (fmtDateC (addDays 15 (y, m, d)).1
            (addDays 15 (y, m, d)).2.1 (addDays 15 (y, m, d)).2.2 ++ 'T' ::
          (fmtTimeC h mi s ++ ['+', '0', '0', ':', '0', '0'])))) ∧
    (∀ y m d : ℕ, ValidDate y m d →
      toOrdinal (addDays 15 (y, m, d)) = toOrdinal (y, m, d) + 15) ∧
    (∀ (job : SfJob) (invoices : List Invoice),
      invoicesFor invoices (job.customer_name.getD "Unknown") = [] →
      (mkRecord invoices job).invoice_due = none) := by
  refine ⟨rfl, rfl, by decide, ?_, ?_, ?_, ?_⟩
  · intro y m d hv hy hbound
    have hm100 : m < 100 := by
      obtain ⟨_, _, hm2, _, _⟩ := hv
      omega
    have hd100 : d < 100 := by
      obtain ⟨_, _, _, _, hd2⟩ := hv
      have := daysInMonth_le (y := y) (m := m)
      omega
    have hlen : (fmtDateC y m d).length = 10 :=
      fmtDateC_length (by omega) hm100 hd100
    unfold calculate_due_date
    dsimp only
    rw [if_neg (by
      intro hc
      have := congrArg List.length hc
      rw [hlen] at this
      simp at this)]
    rw [trimChars_fmtDateC]
    rw [show (fmtDateC y m d).contains 'T' = false from by
      simpa using fmtDateC_not_T y m d]
    rw [if_neg (by simp)]
    rw [List.take_of_length_le (le_of_eq hlen)]
    rw [show parseDate10 (fmtDateC y m d) = some (y, m, d) from
      parseDateCore_fmt false hv hy]
    dsimp only
    rw [if_neg (by omega)]
  · intro y m d h mi s hv hy hh hmi hs hbound
    have hm100 : m < 100 := by
      obtain ⟨_, _, hm2, _, _⟩ := hv
      omega
    have hd100 : d < 100 := by
      obtain ⟨_, _, _, _, hd2⟩ := hv
      have := daysInMonth_le (y := y) (m := m)
      omega
    have hmemcase : ∀ c ∈ fmtDateC y m d ++ 'T' :: fmtTimeC h mi s,
        isDigitC c = true ∨ c = '-' ∨ c = 'T' ∨ c = ':' := by
      intro c hc
      rcases List.mem_append.mp hc with h1 | h1
      · rcases mem_fmtDateC h1 with hd' | hd'
        · exact Or.inl hd'
        · exact Or.inr (Or.inl hd')
      · rcases List.mem_cons.mp h1 with h2 | h2
        · exact Or.inr (Or.inr (Or.inl h2))
        · rcases mem_fmtTimeC h2 with hd' | hd'
          · exact Or.inl hd'
          · exact Or.inr (Or.inr (Or.inr hd'))
    unfold calculate_due_date
    dsimp only
    rw [if_neg (by simp)]
    rw [trimChars_eq_self (by
      intro c hc
      rcases hmemcase c hc with hd' | hd' | hd' | hd'
      · exact isDigitC_not_spc hd'
      · rw [hd']
        rfl
      · rw [hd']
        rfl
      · rw [hd']
        rfl)]
    rw [show (fmtDateC y m d ++ 'T' :: fmtTimeC h mi s).contains 'T' = true from by
      simpa using (show ('T' : Char) ∈ fmtDateC y m d ++ 'T' :: fmtTimeC h mi s from
        List.mem_append_right _ (List.mem_cons_self 'T' _))]
    rw [if_pos rfl]
    rw [show (fmtDateC y m d ++ 'T' :: fmtTimeC h mi s).contains 'Z' = false from by
      have : 'Z' ∉ fmtDateC y m d ++ 'T' :: fmtTimeC h mi s := by
        intro hc
        rcases hmemcase 'Z' hc with hd' | hd' | hd' | hd' <;>
          exact absurd hd' (by decide)
      simpa using this]
    rw [if_neg (by simp)]
    rw [parseIsoC_fmt hv hy hh hmi hs]
    dsimp only
    rw [if_neg (by omega)]
  · intro y m d hv
    exact toOrdinal_addDays hv 15
  · intro job invoices hemp
    unfold mkRecord
    dsimp only
    rw [hemp]
    by_cases h0 : 0 < job.total <;>
      simp [matchInvoice, amountScan, mostRecent1, h0, calculate_due_date]

theorem claim_C9_witness :
    (calculate_due_date (some (String.mk (fmtDateC 2024 1 5))) =
      some (String.mk (fmtDateC (addDays 15 (2024, 1, 5)).1
        (addDays 15 (2024, 1, 5)).2.1 (addDays 15 (2024, 1, 5)).2.2))) ∧
    (calculate_due_date
        (some (String.mk (fmtDateC 2024 1 5 ++ 'T' :: fmtTimeC 10 30 0))) =
      some (String.mk (fmtDateC (addDays 15 (2024, 1, 5)).1
          (addDays 15 (2024, 1, 5)).2.1 (addDays 15 (2024, 1, 5)).2.2 ++ 'T' ::
        (fmtTimeC 10 30 0 ++ ['+', '0', '0', ':', '0', '0'])))) ∧
    (toOrdinal (addDays 15 (2024, 1, 5)) = toOrdinal (2024, 1, 5) + 15) ∧
    ((mkRecord []
        (SfJob.mk none none none none none 0 none none none none none none)).invoice_due =
      none) := by
  refine ⟨?_, ?_, ?_, ?_⟩
  · exact claim_C9.2.2.2.1 2024 1 5 (by decide) (by decide) (by decide)
  · exact claim_C9.2.2.2.2.1 2024 1 5 10 30 0 (by decide) (by decide) (by decide)
      (by decide) (by decide) (by decide)
  · exact claim_C9.2.2.2.2.2.1 2024 1 5 (by decide)
  · exact claim_C9.2.2.2.2.2.2
      (SfJob.mk none none none none none 0 none none none none none none) [] rfl
